import Mathlib

/-!
Verification of the glompo decision core against its specification.

The development shallowly embeds, in Lean, the parts of the source that the
claims speak about:

* `glompo/common/corebase.py` — the lazy boolean combinator engine
  (`_CoreBase`, `_CombiCore`, `_OrCore`, `_AndCore`) used for hunter trees;
* `glompo/convergence/basechecker.py` — the checker combinator engine
  (`BaseChecker`, `_AnyChecker`, `_AllChecker`);
* `glompo/common/helpers.py` — `nested_string_formatting`;
* `glompo/convergence/nkillsafterconv.py` — `KillsAfterConvergence`;
* `glompo/core/regression.py` — `DataRegressor.estimate_mle` and
  `DataRegressor.estimate_parameters` (the numeric fitting and the MCMC
  sampling are abstracted as oracle parameters; the cache logic, branch
  structure, return shapes and warning paths are translated faithfully);
* `glompo/core/checkpointing.py` — `CheckpointingControl` (naming-format
  regex construction, `get_name`, `matches_naming_format`), with Python's
  string `replace`, `strftime` digit fields, and the fragment of the `re`
  syntax the constructor emits modelled explicitly.

Mutable attributes become explicit state threading; hidden effects the spec
talks about ("the fit computation is performed", "a leaf's evaluate is
invoked") are made observable through counters and traces.
-/

/-! ### Combinator engine of `glompo/common/corebase.py`

A node of a hunter/checker expression tree.  A leaf wraps a predicate of the
evaluation context; Python renders a leaf through `inspect`-reflection over
its constructor signature, which has no shallow embedding, so a leaf carries
its rendered description as the field `descr`.  `orCore`/`andCore` mirror
`_OrCore`/`_AndCore` (each owns exactly two children). -/
inductive CoreBase (Ctx : Type) where
  | leaf (descr : String) (pred : Ctx → Bool)
  | orCore (base1 base2 : CoreBase Ctx)
  | andCore (base1 base2 : CoreBase Ctx)

/-- A node of the tree is identified by its path from the root:
`false` steps into `base1`, `true` into `base2`. -/
abbrev NodePath := List Bool

/-- The `_last_result` attributes of all nodes of a tree, indexed by path.
`none` models Python's `None` ("unknown"). -/
abbrev ResultCache := NodePath → Option Bool

/-- Assignment to one node's `_last_result`. -/
def setRes (c : ResultCache) (p : NodePath) (v : Option Bool) : ResultCache :=
  fun q => if q = p then v else c q

/-- `_CombiCore.reset`: sets `base1._last_result = None` and
`base2._last_result = None` — the direct children only. -/
def resetChildren (c : ResultCache) (p : NodePath) : ResultCache :=
  setRes (setRes c (p ++ [false]) none) (p ++ [true]) none

/-- Evaluation of a node at path `p`.  Returns the boolean result, the updated
result caches, and the trace of leaf paths whose predicate was invoked, in
invocation order.

* a leaf stores its result in `_last_result` before returning it (the
  documented contract of `_CoreBase.__call__`, followed by the concrete
  hunters such as `MinFuncCalls`);
* `_OrCore.__call__` runs `_CombiCore.__call__` (= `self.reset()`) and then
  `self.base1(...) or self.base2(...)` — Python's short-circuiting `or`;
* `_AndCore.__call__` likewise with `and`. -/
def evalCore {Ctx : Type} : CoreBase Ctx → Ctx → NodePath → ResultCache →
    Bool × ResultCache × List NodePath
  | .leaf _ pred, ctx, p, c =>
    let r := pred ctx
    (r, setRes c p (some r), [p])
  | .orCore b1 b2, ctx, p, c =>
    let c0 := resetChildren c p
    let e1 := evalCore b1 ctx (p ++ [false]) c0
    if e1.1 then e1
    else
      let e2 := evalCore b2 ctx (p ++ [true]) e1.2.1
      (e2.1, e2.2.1, e1.2.2 ++ e2.2.2)
  | .andCore b1 b2, ctx, p, c =>
    let c0 := resetChildren c p
    let e1 := evalCore b1 ctx (p ++ [false]) c0
    if e1.1 then
      let e2 := evalCore b2 ctx (p ++ [true]) e1.2.1
      (e2.1, e2.2.1, e1.2.2 ++ e2.2.2)
    else e1

/-- `__str__`: a leaf renders as its description, `_OrCore.__str__` as
`_combi_string_maker("|")`, `_AndCore.__str__` as `_combi_string_maker("&")`,
each producing the f-string `[{base1} {keyword} \n{base2}]`. -/
def strOf {Ctx : Type} : CoreBase Ctx → String
  | .leaf descr _ => descr
  | .orCore b1 b2 => "[" ++ strOf b1 ++ " | \n" ++ strOf b2 ++ "]"
  | .andCore b1 b2 => "[" ++ strOf b1 ++ " & \n" ++ strOf b2 ++ "]"

/-- Python's `str` on the values `_last_result` ranges over. -/
def pyShowOpt : Option Bool → String
  | none => "None"
  | some true => "True"
  | some false => "False"

/-- `str_with_result`: a leaf appends `" = {_last_result}"` to its rendering
(`_CoreBase.str_with_result`); a composite renders
`_combi_result_string_maker`, recursing into both children (the composite's
own `_last_result` does not appear). -/
def strWithResult {Ctx : Type} : CoreBase Ctx → NodePath → ResultCache → String
  | .leaf descr _, p, c => descr ++ " = " ++ pyShowOpt (c p)
  | .orCore b1 b2, p, c =>
    "[" ++ strWithResult b1 (p ++ [false]) c ++ " | \n" ++
      strWithResult b2 (p ++ [true]) c ++ "]"
  | .andCore b1 b2, p, c =>
    "[" ++ strWithResult b1 (p ++ [false]) c ++ " & \n" ++
      strWithResult b2 (p ++ [true]) c ++ "]"

/-! ### Checker engine of `glompo/convergence/basechecker.py`

`_CombiChecker` stores the list `[base1, base2, *args]` of at least two
children.  Leaves carry a numeric id so that the trace of invoked
`check_convergence` calls is observable. -/
inductive Checker (Ctx : Type) where
  | leaf (id : Nat) (pred : Ctx → Bool)
  | anyChecker (bases : List (Checker Ctx))
  | allChecker (bases : List (Checker Ctx))

mutual

/-- `check_convergence`, returning the result and the trace of leaf ids
invoked.  `_AnyChecker` evaluates
`any([base.check_convergence(manager) for base in self.base_checkers])`: the
list comprehension runs every child, left to right, before `any` is applied;
`_AllChecker` likewise with `all`. -/
def checkConvergence {Ctx : Type} : Checker Ctx → Ctx → Bool × List Nat
  | .leaf i pred, ctx => (pred ctx, [i])
  | .anyChecker bases, ctx =>
    let rs := checkConvergenceList bases ctx
    ((rs.map Prod.fst).any (fun b => b), (rs.map Prod.snd).flatten)
  | .allChecker bases, ctx =>
    let rs := checkConvergenceList bases ctx
    ((rs.map Prod.fst).all (fun b => b), (rs.map Prod.snd).flatten)

/-- The evaluated list comprehension
`[base.check_convergence(manager) for base in self.base_checkers]`. -/
def checkConvergenceList {Ctx : Type} : List (Checker Ctx) → Ctx →
    List (Bool × List Nat)
  | [], _ => []
  | b :: bs, ctx => checkConvergence b ctx :: checkConvergenceList bs ctx

end

/-! ### `nested_string_formatting` of `glompo/common/helpers.py` -/

/-- Python `str.replace` restricted to a single-character pattern
(`.replace('[', '[\n')` and `.replace(']', '\n]')` in the source). -/
def replaceChar (c : Char) (rep : List Char) (s : List Char) : List Char :=
  s.flatMap (fun x => if x = c then rep else [x])

/-- One pass of the indentation loop of `nested_string_formatting`, carrying
`level_count` (an `Int`: Python lets it go negative, where `' ' * level`
renders as the empty string).  A line containing `'['` is indented at the
current level which is then incremented (the `continue` skips the `']'`
check); otherwise a line containing `']'` first decrements the level and every
remaining line is indented at the (possibly decremented) level. -/
def indentLines : Int → List (List Char) → List (List Char)
  | _, [] => []
  | lvl, line :: rest =>
    if line.contains '[' then
      (List.replicate lvl.toNat ' ' ++ line) :: indentLines (lvl + 1) rest
    else
      let lvl2 := if line.contains ']' then lvl - 1 else lvl
      (List.replicate lvl2.toNat ' ' ++ line) :: indentLines lvl2 rest

/-- `nested_string_formatting(nested_str)`: strips one leading `'['` and one
trailing `']'` if present, moves every bracket onto its own line, splits on
newlines, indents by nesting depth, and joins the lines back. -/
def nested_string_formatting (s : String) : String :=
  let cs := s.data
  let cs := match cs with
    | '[' :: rest => rest
    | other => other
  let cs := if cs.getLast? = some ']' then cs.dropLast else cs
  let cs := replaceChar '[' ['[', '\n'] cs
  let cs := replaceChar ']' ['\n', ']'] cs
  let lines := cs.splitOn '\n'
  ⟨List.intercalate ['\n'] (indentLines 0 lines)⟩

/-! ### `KillsAfterConvergence` of `glompo/convergence/nkillsafterconv.py` -/

/-- The manager attributes the checker reads: `conv_counter` and
`len(hunt_victims)` (the kill set's size; the set only ever grows during a
run). -/
structure ManagerView where
  conv_counter : Nat
  hunt_victims : Nat
deriving DecidableEq, Repr

/-- The mutable attributes of a `KillsAfterConvergence` instance together
with its constructor arguments. -/
structure KillsAfterConvergence where
  n_killed : Nat
  n_converged : Nat
  enough_conv : Bool
  kill_count : Nat
deriving DecidableEq, Repr

/-- `KillsAfterConvergence.__init__(n_killed, n_converged)`. -/
def KillsAfterConvergence.init (nk nc : Nat) : KillsAfterConvergence :=
  { n_killed := nk, n_converged := nc, enough_conv := false, kill_count := 0 }

/-- `KillsAfterConvergence.__call__(manager)`: on the first evaluation at
which `manager.conv_counter >= n_converged`, latch `enough_conv` and snapshot
`kill_count = len(manager.hunt_victims)`; the result is
`enough_conv and len(manager.hunt_victims) - kill_count >= n_killed`
(Python `int` subtraction, hence `Int` here). -/
def KillsAfterConvergence.call (self : KillsAfterConvergence) (m : ManagerView) :
    Bool × KillsAfterConvergence :=
  let self :=
    if self.n_converged ≤ m.conv_counter ∧ self.enough_conv = false then
      { self with enough_conv := true, kill_count := m.hunt_victims }
    else self
  (self.enough_conv &&
    decide ((self.n_killed : Int) ≤ (m.hunt_victims : Int) - (self.kill_count : Int)),
   self)

/-- A sequence of evaluations of the checker against successive manager
states. -/
def KillsAfterConvergence.run (self : KillsAfterConvergence) :
    List ManagerView → KillsAfterConvergence
  | [] => self
  | m :: ms => KillsAfterConvergence.run (self.call m).2 ms

/-- Index of the first element satisfying `p` (a spec-side helper used to
state what the latch computes). -/
def findFirst {α : Type} (p : α → Bool) : List α → Option Nat
  | [] => none
  | a :: l => if p a then some 0 else (findFirst p l).map (· + 1)

/-- The claim's reading of the checker, stated from the spec's words: the
convergence threshold was observed at some evaluation, and relative to the
kill-set size at the first such evaluation, at least `n_killed` further
workers have entered the kill set by the final evaluation. -/
def kacSpec (nk nc : Nat) (ms : List ManagerView) (m : ManagerView) : Prop :=
  ∃ j w, findFirst (fun v => decide (nc ≤ v.conv_counter)) (ms ++ [m]) = some j ∧
    (ms ++ [m])[j]? = some w ∧
    (nk : Int) ≤ (m.hunt_victims : Int) - (w.hunt_victims : Int)

/-! ### `DataRegressor` of `glompo/core/regression.py`

Trajectory arrays become `List Int`; the content hash
`hash((tuple(t), tuple(y)))` is modelled by the pair of sequences itself (an
ideal, injective content hash, as the spec describes it).  The numeric MLE
optimization (closed-form guess, ten bounded L-BFGS-B attempts with random
perturbation) is abstracted as an oracle `fit`; whichever of its exit paths is
taken, the source returns a result and writes it to the cache exactly when
`cache_key` is truthy, which is what the model keeps.  Likewise the MCMC run
is an oracle `sampler` returning `none` when `run_mcmc` raises `ValueError`.
`fit_count`/`sampler_count` count how often each computation actually ran. -/

/-- `RegressorCacheItem` of `glompo/common/namedtuples.py`: the content hash
of the data last fit and the stored result. -/
structure RegressorCacheItem (α : Type) where
  hash : List Int × List Int
  result : α
deriving DecidableEq, Repr

/-- The `(b, c, s)` result triple of the MLE fit. -/
abbrev MleResult := Int × Int × Int

/-- One parameter's `(median, 5% quantile, 95% quantile)` summary. -/
abbrev ParmSummary := Int × Int × Int

/-- The MCMC summary for all three parameters. -/
abbrev MccResult := ParmSummary × ParmSummary × ParmSummary

/-- The mutable state of a `DataRegressor`: the two caches (dictionaries
keyed by optimizer id), plus instrumentation counters for how many times the
MLE fit computation and the MCMC sampler actually ran. -/
structure DataRegressor where
  mle_cache : Int → Option (RegressorCacheItem MleResult)
  mcc_cache : Int → Option (RegressorCacheItem MccResult)
  fit_count : Nat
  sampler_count : Nat

/-- `DataRegressor.__init__`: empty caches. -/
def DataRegressor.init : DataRegressor :=
  { mle_cache := fun _ => none, mcc_cache := fun _ => none,
    fit_count := 0, sampler_count := 0 }

/-- Python dictionary update `cache[k] = v`. -/
def cacheWrite {α : Type} (c : Int → Option α) (k : Int) (v : α) :
    Int → Option α :=
  fun q => if q = k then some v else c q

/-- The guard
`cache_key and cache_key in self.mle_cache and hash_key == self.mle_cache[cache_key].hash`:
`cache_key` is tested for *truthiness*, so `None` and `0` both skip the
cache. -/
def mleHit (st : DataRegressor) (cache_key : Option Int)
    (hash_key : List Int × List Int) : Option MleResult :=
  match cache_key with
  | none => none
  | some k =>
    if k = 0 then none
    else
      match st.mle_cache k with
      | none => none
      | some item => if item.hash = hash_key then some item.result else none

/-- The analogous guard on `self.mcc_cache` in `estimate_parameters`
(including the body's `if posterior:` re-check, which every stored —
necessarily non-empty — result tuple passes). -/
def mccHit (st : DataRegressor) (cache_key : Option Int)
    (hash_key : List Int × List Int) : Option MccResult :=
  match cache_key with
  | none => none
  | some k =>
    if k = 0 then none
    else
      match st.mcc_cache k with
      | none => none
      | some item => if item.hash = hash_key then some item.result else none

/-- `DataRegressor.estimate_mle(t, y, cache_key)`: on a truthy cache key with
a matching stored hash, return the cached result; otherwise run the fit
(oracle `fit` standing for the guess/optimize/retry body) and, when
`cache_key` is truthy, store `RegressorCacheItem(hash_key, result)`. -/
def estimate_mle (fit : List Int → List Int → MleResult) (st : DataRegressor)
    (t y : List Int) (cache_key : Option Int) : MleResult × DataRegressor :=
  let hash_key := (t, y)
  match mleHit st cache_key hash_key with
  | some r => (r, st)
  | none =>
    let r := fit t y
    let st1 : DataRegressor := { st with fit_count := st.fit_count + 1 }
    let st2 : DataRegressor :=
      match cache_key with
      | some k =>
        if k = 0 then st1
        else { st1 with mle_cache := cacheWrite st1.mle_cache k ⟨hash_key, r⟩ }
      | none => st1
    (r, st2)

/-- The `parms` strings accepted by `estimate_parameters` (`param_dict`). -/
inductive Parm where
  | decay
  | asymptote
  | noise
deriving DecidableEq, Repr

/-- `posterior[param_dict[parms]]` / `median[key], quan_l[key], quan_u[key]`. -/
def selectParm (r : MccResult) : Parm → ParmSummary
  | .decay => r.1
  | .asymptote => r.2.1
  | .noise => r.2.2

/-- The four shapes `estimate_parameters` returns: the full result tuple, one
parameter's summary, or — after `run_mcmc` raised `ValueError` and the
`RuntimeWarning` was emitted — the MLE fallback `(value, None)` pairs. -/
inductive EPReturn where
  | full (r : MccResult)
  | single (s : ParmSummary)
  | degraded (b c s : Int)
  | degradedSingle (v : Int)
deriving DecidableEq, Repr

/-- `DataRegressor.estimate_parameters(t, y, parms, ..., cache_key)`:
truthy-keyed cache hit short-circuits; otherwise the sampler runs.  If
`run_mcmc` raises `ValueError` the source warns and returns
`self.estimate_mle(t, y, cache_key)` values paired with `None` — returning
*before* the `self.mcc_cache[cache_key] = ...` line, so the interval cache is
not written on the degraded path.  On success the summary is cached when the
key is truthy and the requested selection returned. -/
def estimate_parameters (fit : List Int → List Int → MleResult)
    (sampler : List Int → List Int → Option MccResult) (st : DataRegressor)
    (t y : List Int) (parms : Option Parm) (cache_key : Option Int) :
    EPReturn × DataRegressor :=
  let hash_key := (t, y)
  match mccHit st cache_key hash_key with
  | some posterior =>
    (match parms with
     | some p => (.single (selectParm posterior p), st)
     | none => (.full posterior, st))
  | none =>
    let st1 : DataRegressor := { st with sampler_count := st.sampler_count + 1 }
    match sampler t y with
    | none =>
      let mle := estimate_mle fit st1 t y cache_key
      (match parms with
       | some .decay => (.degradedSingle mle.1.1, mle.2)
       | some .asymptote => (.degradedSingle mle.1.2.1, mle.2)
       | some .noise => (.degradedSingle mle.1.2.2, mle.2)
       | none => (.degraded mle.1.1 mle.1.2.1 mle.1.2.2, mle.2))
    | some result =>
      let st2 : DataRegressor :=
        match cache_key with
        | some k =>
          if k = 0 then st1
          else { st1 with mcc_cache := cacheWrite st1.mcc_cache k ⟨hash_key, result⟩ }
        | none => st1
      (match parms with
       | some p => (.single (selectParm result p), st2)
       | none => (.full result, st2))

/-! ### `CheckpointingControl` of `glompo/core/checkpointing.py`

Strings are handled at `List Char` level.  `str.replace` is given a
fuel-indexed structural implementation (`pyReplaceF`, fuel = length of the
subject, which every step strictly consumes, so the fuel never runs out).
The `re` patterns the constructor emits fall in a small fragment — literal
characters, single-character classes `[c]`, escapes `\c`, the digit classes
`[0-9]{n}` with a single-digit count, and the group `(?P<index>[0-9]{3})` —
for which `parseRe`/`matchToks` implement `re.match`'s anchored prefix
semantics exactly (every atom has a fixed width, so no backtracking exists).
`parseRe` returns `none` outside the fragment (where CPython would raise
`re.error` at match time, e.g. for a duplicated group name). -/

/-- Fuel-indexed Python `str.replace` body: replace each left-to-right,
non-overlapping occurrence of `pat` by `rep`. -/
def pyReplaceF (pat rep : List Char) : Nat → List Char → List Char
  | _, [] => []
  | 0, s => s
  | fuel + 1, c :: rest =>
    if pat.isPrefixOf (c :: rest) then
      rep ++ pyReplaceF pat rep fuel (List.drop (pat.length - 1) rest)
    else c :: pyReplaceF pat rep fuel rest

/-- Python `s.replace(pat, rep)` for a non-empty pattern (the source only
replaces fixed non-empty token strings; the empty pattern is mapped to the
identity). -/
def pyReplace (pat rep s : List Char) : List Char :=
  match pat with
  | [] => s
  | _ => pyReplaceF pat rep s.length s

/-- Decimal digit characters of `n`, most significant first (fuel-indexed;
`n + 1` is always enough fuel since a number has at most `n + 1` digits). -/
def natCharsF : Nat → Nat → List Char
  | 0, _ => []
  | fuel + 1, n =>
    if n < 10 then [Nat.digitChar n]
    else natCharsF fuel (n / 10) ++ [Nat.digitChar (n % 10)]

/-- Decimal rendering of `n`. -/
def natChars (n : Nat) : List Char :=
  natCharsF (n + 1) n

/-- Zero-padding to width `w`, as Python's `%02d`-style `strftime` fields and
`f-string` `{:03}` produce (wider numbers keep all their digits). -/
def padNum (w n : Nat) : List Char :=
  List.replicate (w - (natChars n).length) '0' ++ natChars n

/-- The character-escaping loop of `CheckpointingControl.__init__`: the
characters `{ ( + * | . $ ) }` become the class `[c]`, the characters
`^ [ ]` become the escape `\c`, anything else stays (note `?` and `\` are
left as they are). -/
def escapeChar (c : Char) : List Char :=
  if c = '{' ∨ c = '(' ∨ c = '+' ∨ c = '*' ∨ c = '|' ∨ c = '.' ∨ c = '$' ∨
      c = ')' ∨ c = '}' then ['[', c, ']']
  else if c = '^' ∨ c = '[' ∨ c = ']' then ['\\', c]
  else [c]

/-- `naming_format_re`: escape every character, then substitute the digit
classes for the date/time tokens (whose `(`/`)` have just been escaped, hence
the `%[(]...[)]` keys), and the named group for the count token, in the
source's dictionary order. -/
def buildNamingRe (fmt : List Char) : List Char :=
  let r := fmt.flatMap escapeChar
  let r := pyReplace "%[(]date[)]".data "[0-9]{8}".data r
  let r := pyReplace "%[(]year[)]".data "[0-9]{4}".data r
  let r := pyReplace "%[(]yr[)]".data "[0-9]{2}".data r
  let r := pyReplace "%[(]month[)]".data "[0-9]{2}".data r
  let r := pyReplace "%[(]day[)]".data "[0-9]{2}".data r
  let r := pyReplace "%[(]time[)]".data "[0-9]{6}".data r
  let r := pyReplace "%[(]hour[)]".data "[0-9]{2}".data r
  let r := pyReplace "%[(]min[)]".data "[0-9]{2}".data r
  let r := pyReplace "%[(]sec[)]".data "[0-9]{2}".data r
  pyReplace "%[(]count[)]".data "(?P<index>[0-9]{3})".data r

/-- One fixed-width atom of the emitted regex fragment. -/
inductive RTok where
  | lit (c : Char)
  | digits (n : Nat)
  | countGroup
deriving DecidableEq, Repr

/-- Characters that carry regex meaning when they appear raw and that the
fragment matcher does not implement. -/
def rawSpecial (c : Char) : Bool :=
  c = '?' ∨ c = '*' ∨ c = '+' ∨ c = '{' ∨ c = '}' ∨ c = '(' ∨ c = ')' ∨
    c = '|' ∨ c = '.' ∨ c = '$' ∨ c = '^' ∨ c = '[' ∨ c = ']' ∨ c = '\\'

/-- Parser for the emitted regex fragment. -/
def parseRe : List Char → Option (List RTok)
  | [] => some []
  | '[' :: '0' :: '-' :: '9' :: ']' :: '{' :: d :: '}' :: rest =>
    if d.isDigit then (parseRe rest).map (RTok.digits (d.toNat - '0'.toNat) :: ·)
    else none
  | '[' :: '0' :: '-' :: '9' :: ']' :: rest =>
    (parseRe rest).map (RTok.digits 1 :: ·)
  | '[' :: c :: ']' :: rest => (parseRe rest).map (RTok.lit c :: ·)
  | '\\' :: c :: rest => (parseRe rest).map (RTok.lit c :: ·)
  | '(' :: '?' :: 'P' :: '<' :: 'i' :: 'n' :: 'd' :: 'e' :: 'x' :: '>' ::
      '[' :: '0' :: '-' :: '9' :: ']' :: '{' :: '3' :: '}' :: ')' :: rest =>
    (parseRe rest).map (RTok.countGroup :: ·)
  | c :: rest => if rawSpecial c then none else (parseRe rest).map (RTok.lit c :: ·)

/-- `int(...)` on a group of digit characters. -/
def digitsToNat (ds : List Char) : Nat :=
  ds.foldl (fun a c => a * 10 + (c.toNat - '0'.toNat)) 0

/-- Anchored matching of the token list against a prefix of the subject
(`re.match` semantics: trailing subject characters are ignored).  Returns
`none` on failure, otherwise the value of the `index` group if it matched
(`match.lastgroup == 'index'` in the source's scan). -/
def matchToks : List RTok → List Char → Option Nat → Option (Option Nat)
  | [], _, g => some g
  | .lit _ :: _, [], _ => none
  | .lit c :: ts, x :: xs, g => if x = c then matchToks ts xs g else none
  | .digits n :: ts, xs, g =>
    if (xs.take n).length = n ∧ (xs.take n).all Char.isDigit then
      matchToks ts (xs.drop n) g
    else none
  | .countGroup :: ts, xs, _g =>
    if (xs.take 3).length = 3 ∧ (xs.take 3).all Char.isDigit then
      matchToks ts (xs.drop 3) (some (digitsToNat (xs.take 3)))
    else none

/-- `re.match(pattern, name)` over the emitted fragment. -/
def reMatch (pattern name : List Char) : Option (Option Nat) :=
  match parseRe pattern with
  | some toks => matchToks toks name none
  | none => none

/-- A `datetime.now()` value.  CPython guarantees `1 <= year <= 9999` and the
usual calendar bounds on the remaining fields. -/
structure PyDateTime where
  year : Nat
  month : Nat
  day : Nat
  hour : Nat
  minute : Nat
  second : Nat
deriving DecidableEq, Repr

/-- `strftime('%Y%m%d')`. -/
def dateChars (now : PyDateTime) : List Char :=
  padNum 4 now.year ++ padNum 2 now.month ++ padNum 2 now.day

/-- `strftime('%H%M%S')`. -/
def timeChars (now : PyDateTime) : List Char :=
  padNum 2 now.hour ++ padNum 2 now.minute ++ padNum 2 now.second

/-- The `strftime`-expansion loop of `get_name`: each naming token is
replaced by the current time formatted with the paired `strftime` code, in
the source's dictionary order. -/
def getNameStr (fmt : List Char) (now : PyDateTime) : List Char :=
  let name := fmt
  let name := pyReplace "%(date)".data (dateChars now) name
  let name := pyReplace "%(year)".data (padNum 4 now.year) name
  let name := pyReplace "%(yr)".data (padNum 2 (now.year % 100)) name
  let name := pyReplace "%(month)".data (padNum 2 now.month) name
  let name := pyReplace "%(day)".data (padNum 2 now.day) name
  let name := pyReplace "%(time)".data (timeChars now) name
  let name := pyReplace "%(hour)".data (padNum 2 now.hour) name
  let name := pyReplace "%(min)".data (padNum 2 now.minute) name
  let name := pyReplace "%(sec)".data (padNum 2 now.second) name
  name

/-- `CheckpointingControl`: the naming format and the `count` attribute
(`None` after `__init__`).  The checkpoint directory is passed to `get_name`
as `none` (directory does not exist) or the list of entry names. -/
structure CheckpointingControl where
  naming_format : String
  count : Option Int
deriving DecidableEq, Repr

/-- The stored `naming_format_re` attribute. -/
def CheckpointingControl.naming_format_re (ctrl : CheckpointingControl) :
    List Char :=
  buildNamingRe ctrl.naming_format.data

/-- The directory scan of `get_name`: `max_index` starts at `-1`, every entry
that matches the naming regex with a participating `index` group raises it,
and the new count is `max_index + 1` — or `0` when the directory does not
exist. -/
def scanCount (ctrl : CheckpointingControl) (dir_entries : Option (List String)) :
    Int :=
  match dir_entries with
  | none => 0
  | some entries =>
    (entries.foldl (fun mx e =>
      match reMatch ctrl.naming_format_re e.data with
      | some (some i) => if (i : Int) > mx then (i : Int) else mx
      | _ => mx) (-1 : Int)) + 1

/-- `f'{self.count:03}'` (the count here is always non-negative). -/
def formatCount (c : Int) : List Char :=
  padNum 3 c.toNat

/-- `CheckpointingControl.get_name()`: expand the date/time tokens from the
current time, *recompute* `self.count` from the directory scan, substitute it
for `%(count)` zero-padded to three digits, and post-increment the counter.
The scan runs on every call, so the post-incremented counter is overwritten
before it is ever used. -/
def get_name (ctrl : CheckpointingControl) (now : PyDateTime)
    (dir_entries : Option (List String)) : String × CheckpointingControl :=
  let name := getNameStr ctrl.naming_format.data now
  let count := scanCount ctrl dir_entries
  let name := pyReplace "%(count)".data (formatCount count) name
  (⟨name⟩, { ctrl with count := some (count + 1) })

/-- `CheckpointingControl.matches_naming_format(name)`:
`bool(re.match(self.naming_format_re, name))`. -/
def matches_naming_format (ctrl : CheckpointingControl) (name : String) : Bool :=
  (reMatch ctrl.naming_format_re name.data).isSome

/-! ### Lemmas about the combinator engine -/

/-- Every leaf invoked during the evaluation of a node lies in that node's
subtree: its path extends the node's path. -/
lemma evalCore_trace_extends {Ctx : Type} (b : CoreBase Ctx) (ctx : Ctx) :
    ∀ (p : NodePath) (c : ResultCache) (q : NodePath),
      q ∈ (evalCore b ctx p c).2.2 → ∃ r, q = p ++ r := by
  induction b with
  | leaf d pred =>
    intro p c q hq
    simp only [evalCore, List.mem_singleton] at hq
    exact ⟨[], by simp [hq]⟩
  | orCore b1 b2 ih1 ih2 =>
    intro p c q hq
    simp only [evalCore] at hq
    split at hq
    · obtain ⟨r, hr⟩ := ih1 (p ++ [false]) _ q hq
      exact ⟨false :: r, by simp [hr]⟩
    · rcases List.mem_append.mp hq with hq | hq
      · obtain ⟨r, hr⟩ := ih1 (p ++ [false]) _ q hq
        exact ⟨false :: r, by simp [hr]⟩
      · obtain ⟨r, hr⟩ := ih2 (p ++ [true]) _ q hq
        exact ⟨true :: r, by simp [hr]⟩
  | andCore b1 b2 ih1 ih2 =>
    intro p c q hq
    simp only [evalCore] at hq
    split at hq
    · rcases List.mem_append.mp hq with hq | hq
      · obtain ⟨r, hr⟩ := ih1 (p ++ [false]) _ q hq
        exact ⟨false :: r, by simp [hr]⟩
      · obtain ⟨r, hr⟩ := ih2 (p ++ [true]) _ q hq
        exact ⟨true :: r, by simp [hr]⟩
    · obtain ⟨r, hr⟩ := ih1 (p ++ [false]) _ q hq
      exact ⟨false :: r, by simp [hr]⟩

/-- Evaluation of a node never touches the `_last_result` of a node outside
its subtree. -/
lemma evalCore_cache_outside {Ctx : Type} (b : CoreBase Ctx) (ctx : Ctx) :
    ∀ (p : NodePath) (c : ResultCache) (q : NodePath),
      (∀ r, q ≠ p ++ r) → (evalCore b ctx p c).2.1 q = c q := by
  induction b with
  | leaf d pred =>
    intro p c q hq
    have hne : q ≠ p := by have h0 := hq []; simp at h0; exact h0
    simp [evalCore, setRes, hne]
  | orCore b1 b2 ih1 ih2 =>
    intro p c q hq
    have hq1 : ∀ r, q ≠ (p ++ [false]) ++ r := fun r h =>
      hq (false :: r) (h.trans (by simp))
    have hq2 : ∀ r, q ≠ (p ++ [true]) ++ r := fun r h =>
      hq (true :: r) (h.trans (by simp))
    have hreset : resetChildren c p q = c q := by
      simp [resetChildren, setRes, hq [false], hq [true]]
    simp only [evalCore]
    split
    · rw [ih1 (p ++ [false]) _ q hq1, hreset]
    · rw [ih2 (p ++ [true]) _ q hq2, ih1 (p ++ [false]) _ q hq1, hreset]
  | andCore b1 b2 ih1 ih2 =>
    intro p c q hq
    have hq1 : ∀ r, q ≠ (p ++ [false]) ++ r := fun r h =>
      hq (false :: r) (h.trans (by simp))
    have hq2 : ∀ r, q ≠ (p ++ [true]) ++ r := fun r h =>
      hq (true :: r) (h.trans (by simp))
    have hreset : resetChildren c p q = c q := by
      simp [resetChildren, setRes, hq [false], hq [true]]
    simp only [evalCore]
    split
    · rw [ih2 (p ++ [true]) _ q hq2, ih1 (p ++ [false]) _ q hq1, hreset]
    · rw [ih1 (p ++ [false]) _ q hq1, hreset]

/-- A path in `base1`'s subtree never lies in `base2`'s subtree. -/
lemma subtree_disjoint (p : NodePath) (r s : List Bool) :
    (p ++ [false]) ++ r ≠ (p ++ [true]) ++ s := by
  intro h
  have h2 : p ++ (false :: r) = p ++ (true :: s) := by
    simp only [List.append_assoc, List.singleton_append] at h
    exact h
  have h3 : (false : Bool) :: r = true :: s := by
    exact List.append_cancel_left h2
  simp at h3

/-! ### Claim C1 — short-circuit evaluation -/

/-- Claim C1, counterexample.  In the checker-tree instantiation
(`_AnyChecker`/`_AllChecker` of `basechecker.py`) the claim fails: the list
comprehension inside `any([...])`/`all([...])` evaluates *every* child before
combining, so for `Or(a, b)` with `a` true the evaluation of `b` is still
invoked (leaf id 2 appears in the trace), and likewise for `And(a, b)` with
`a` false (leaf id 4 appears). -/
theorem c1_checker_no_short_circuit_counterexample :
    (checkConvergence (Checker.anyChecker
      [Checker.leaf 1 (fun _ : Unit => true), Checker.leaf 2 (fun _ => true)]) ()).1
        = true ∧
    (checkConvergence (Checker.anyChecker
      [Checker.leaf 1 (fun _ : Unit => true), Checker.leaf 2 (fun _ => true)]) ()).2
        = [1, 2] ∧
    (checkConvergence (Checker.allChecker
      [Checker.leaf 3 (fun _ : Unit => false), Checker.leaf 4 (fun _ => true)]) ()).1
        = false ∧
    (checkConvergence (Checker.allChecker
      [Checker.leaf 3 (fun _ : Unit => false), Checker.leaf 4 (fun _ => true)]) ()).2
        = [3, 4] := by
  exact ⟨rfl, rfl, rfl, rfl⟩

/-- Claim C1, amended: short-circuit evaluation holds for the
`_OrCore`/`_AndCore` engine of `corebase.py` (the hunter trees): if `base1`
of an `Or` evaluates true, the composite's evaluation *is* `base1`'s
evaluation (same result, caches and trace — `base2` contributes nothing) and
no leaf of `base2`'s subtree is invoked; symmetrically for `And` on false.
The `_AnyChecker`/`_AllChecker` checker trees do not short-circuit (see the
counterexample). -/
theorem c1_amended_short_circuit {Ctx : Type} (b1 b2 : CoreBase Ctx) (ctx : Ctx)
    (p : NodePath) (c : ResultCache) :
    ((evalCore b1 ctx (p ++ [false]) (resetChildren c p)).1 = true →
      evalCore (CoreBase.orCore b1 b2) ctx p c =
        evalCore b1 ctx (p ++ [false]) (resetChildren c p) ∧
      ∀ q ∈ (evalCore (CoreBase.orCore b1 b2) ctx p c).2.2,
        ∀ r, q ≠ (p ++ [true]) ++ r) ∧
    ((evalCore b1 ctx (p ++ [false]) (resetChildren c p)).1 = false →
      evalCore (CoreBase.andCore b1 b2) ctx p c =
        evalCore b1 ctx (p ++ [false]) (resetChildren c p) ∧
      ∀ q ∈ (evalCore (CoreBase.andCore b1 b2) ctx p c).2.2,
        ∀ r, q ≠ (p ++ [true]) ++ r) := by
  constructor
  · intro h1
    have heq : evalCore (CoreBase.orCore b1 b2) ctx p c =
        evalCore b1 ctx (p ++ [false]) (resetChildren c p) := by
      simp only [evalCore, h1, if_true]
    refine ⟨heq, ?_⟩
    intro q hq r
    rw [heq] at hq
    obtain ⟨s, hs⟩ := evalCore_trace_extends b1 ctx (p ++ [false]) _ q hq
    rw [hs]
    exact subtree_disjoint p s r
  · intro h1
    have heq : evalCore (CoreBase.andCore b1 b2) ctx p c =
        evalCore b1 ctx (p ++ [false]) (resetChildren c p) := by
      simp only [evalCore, h1, Bool.false_eq_true, if_false]
    refine ⟨heq, ?_⟩
    intro q hq r
    rw [heq] at hq
    obtain ⟨s, hs⟩ := evalCore_trace_extends b1 ctx (p ++ [false]) _ q hq
    rw [hs]
    exact subtree_disjoint p s r

/-- Claim C1, witness: the amended theorem applied to concrete one-leaf
children at the root path. -/
theorem c1_amended_short_circuit_witness :
    ((evalCore (CoreBase.leaf "L" (fun _ : Unit => true)) () ([] ++ [false])
        (resetChildren (fun _ => none) [])).1 = true ∧
      evalCore (CoreBase.orCore (CoreBase.leaf "L" (fun _ : Unit => true))
          (CoreBase.leaf "R" (fun _ => true))) () [] (fun _ => none) =
        evalCore (CoreBase.leaf "L" (fun _ : Unit => true)) () ([] ++ [false])
          (resetChildren (fun _ => none) [])) ∧
    ((evalCore (CoreBase.leaf "L2" (fun _ : Unit => false)) () ([] ++ [false])
        (resetChildren (fun _ => none) [])).1 = false ∧
      evalCore (CoreBase.andCore (CoreBase.leaf "L2" (fun _ : Unit => false))
          (CoreBase.leaf "R2" (fun _ => true))) () [] (fun _ => none) =
        evalCore (CoreBase.leaf "L2" (fun _ : Unit => false)) () ([] ++ [false])
          (resetChildren (fun _ => none) [])) := by
  constructor
  · exact ⟨rfl, ((c1_amended_short_circuit (CoreBase.leaf "L" (fun _ : Unit => true))
      (CoreBase.leaf "R" (fun _ => true)) () [] (fun _ => none)).1 rfl).1⟩
  · exact ⟨rfl, ((c1_amended_short_circuit (CoreBase.leaf "L2" (fun _ : Unit => false))
      (CoreBase.leaf "R2" (fun _ => true)) () [] (fun _ => none)).2 rfl).1⟩

/-! ### Claim C2 — reset of last-result caches before evaluation -/

/-- The tree of the C2 counterexample: `Or(A, And(B, C))` over a numeric
context; `A` is true exactly on context `1`, `B` and `C` always true. -/
def c2Tree : CoreBase Nat :=
  .orCore (.leaf "A" (fun n => n == 1))
    (.andCore (.leaf "B" (fun _ => true)) (.leaf "C" (fun _ => true)))

/-- The caches after a first top-level evaluation at context `0` (it runs
`A = False`, `B = True`, `C = True`). -/
def c2CacheAfterFirst : ResultCache :=
  (evalCore c2Tree 0 [] (fun _ => none)).2.1

/-- The second top-level evaluation, at context `1`: `A` is true, so the
whole `And(B, C)` branch is skipped. -/
def c2Second : Bool × ResultCache × List NodePath :=
  evalCore c2Tree 1 [] c2CacheAfterFirst

/-- Claim C2, counterexample.  `reset` only clears the *direct* children's
caches, so after the second evaluation the leaves `B` and `C` — descendants
of the skipped `And` branch, and not invoked in that evaluation (the trace
holds only `A`'s path) — still cache their stale `True` from the first
evaluation, and `str_with_result` renders them as `True`, not unknown. -/
theorem c2_stale_descendant_counterexample :
    c2Second.1 = true ∧
    c2Second.2.2 = [[false]] ∧
    c2Second.2.1 [true, false] = some true ∧
    c2Second.2.1 [true, true] = some true ∧
    strWithResult c2Tree [] c2Second.2.1 =
      "[A = True | \n[B = True & \nC = True]]" := by
  exact ⟨rfl, rfl, rfl, rfl, rfl⟩

/-- Claim C2, amended: before every evaluation of a composite, the *direct*
children's last-result caches are reset to unknown, so a direct child skipped
by short-circuiting reads `None` after the evaluation; descendants deeper
inside a skipped branch are not reset and may retain stale results (see the
counterexample). -/
theorem c2_amended_direct_child_reset {Ctx : Type} (b1 b2 : CoreBase Ctx)
    (ctx : Ctx) (p : NodePath) (c : ResultCache) :
    ((evalCore b1 ctx (p ++ [false]) (resetChildren c p)).1 = true →
      (evalCore (CoreBase.orCore b1 b2) ctx p c).2.1 (p ++ [true]) = none) ∧
    ((evalCore b1 ctx (p ++ [false]) (resetChildren c p)).1 = false →
      (evalCore (CoreBase.andCore b1 b2) ctx p c).2.1 (p ++ [true]) = none) := by
  have houtside : ∀ r, (p ++ [true]) ≠ (p ++ [false]) ++ r := by
    intro r h
    exact subtree_disjoint p r [] (by simp [h.symm])
  have hbase1 : (evalCore b1 ctx (p ++ [false]) (resetChildren c p)).2.1
      (p ++ [true]) = none := by
    rw [evalCore_cache_outside b1 ctx (p ++ [false]) _ _ houtside]
    simp [resetChildren, setRes]
  constructor
  · intro h1
    have heq : evalCore (CoreBase.orCore b1 b2) ctx p c =
        evalCore b1 ctx (p ++ [false]) (resetChildren c p) := by
      simp only [evalCore, h1, if_true]
    rw [heq]
    exact hbase1
  · intro h1
    have heq : evalCore (CoreBase.andCore b1 b2) ctx p c =
        evalCore b1 ctx (p ++ [false]) (resetChildren c p) := by
      simp only [evalCore, h1, Bool.false_eq_true, if_false]
    rw [heq]
    exact hbase1

/-- Claim C2, witness: the amended theorem at a concrete tree whose left leaf
is true, with a cache in which the skipped right child held a stale result. -/
theorem c2_amended_direct_child_reset_witness :
    (evalCore (CoreBase.leaf "P" (fun _ : Unit => true)) () ([] ++ [false])
      (resetChildren (fun _ => some false) [])).1 = true ∧
    (evalCore (CoreBase.orCore (CoreBase.leaf "P" (fun _ : Unit => true))
      (CoreBase.leaf "Q" (fun _ => true))) () [] (fun _ => some false)).2.1
        ([] ++ [true]) = none := by
  exact ⟨rfl, (c2_amended_direct_child_reset
    (CoreBase.leaf "P" (fun _ : Unit => true)) (CoreBase.leaf "Q" (fun _ => true))
    () [] (fun _ => some false)).1 rfl⟩

/-! ### Claim C7 — rendering format of composite trees -/

/-- Claim C7, counterexample.  The separator tokens of the
`_OrCore`/`_AndCore` engine are the fixed strings `" | "` and `" & "` (from
`_combi_string_maker("|")` / `_combi_string_maker("&")`), not `" OR "` and
`" AND "`: `Or(Leaf("X"), Leaf("Y"))` renders as `"[X | \nY]"`, which is not
the claimed `"[X OR \nY]"`. -/
theorem c7_separator_counterexample :
    strOf (CoreBase.orCore (CoreBase.leaf "X" (fun _ : Unit => true))
      (CoreBase.leaf "Y" (fun _ => true))) = "[X | \nY]" ∧
    strOf (CoreBase.orCore (CoreBase.leaf "X" (fun _ : Unit => true))
      (CoreBase.leaf "Y" (fun _ => true))) ≠ "[X OR \nY]" := by
  exact ⟨rfl, by decide⟩

/-- Claim C7, amended: `__str__` on a composite renders a bracketed
expression whose separators are the fixed strings `" | "` (Or) and `" & "`
(And); `Or(Leaf("X"), Leaf("Y"))` renders as `"[X | \nY]"`; and
`nested_string_formatting` then indents each additional nesting level by one
extra space (shown at depths two and three). -/
theorem c7_amended_rendering {Ctx : Type} (b1 b2 : CoreBase Ctx) :
    strOf (CoreBase.orCore b1 b2) = "[" ++ strOf b1 ++ " | \n" ++ strOf b2 ++ "]" ∧
    strOf (CoreBase.andCore b1 b2) = "[" ++ strOf b1 ++ " & \n" ++ strOf b2 ++ "]" ∧
    strOf (CoreBase.orCore (CoreBase.leaf "X" (fun _ : Unit => true))
      (CoreBase.leaf "Y" (fun _ => true))) = "[X | \nY]" ∧
    nested_string_formatting (strOf (CoreBase.orCore
      (CoreBase.leaf "X" (fun _ : Unit => true))
      (CoreBase.andCore (CoreBase.leaf "Y" (fun _ => true))
        (CoreBase.leaf "Z" (fun _ => true))))) = "X | \n[\n Y & \n Z\n]" ∧
    nested_string_formatting (strOf (CoreBase.orCore
      (CoreBase.leaf "X" (fun _ : Unit => true))
      (CoreBase.andCore (CoreBase.leaf "Y" (fun _ => true))
        (CoreBase.orCore (CoreBase.leaf "Z" (fun _ => true))
          (CoreBase.leaf "W" (fun _ => true)))))) =
      "X | \n[\n Y & \n [\n  Z | \n  W\n ]\n]" := by
  exact ⟨rfl, rfl, rfl, rfl, rfl⟩

/-! ### Claim C5 — `KillsAfterConvergence` latch and baseline -/

/-- Once the latch is set, a call leaves the checker's state unchanged. -/
lemma kac_call_frozen (self : KillsAfterConvergence) (m : ManagerView)
    (h : self.enough_conv = true) : (self.call m).2 = self := by
  simp [KillsAfterConvergence.call, h]

/-- Once the latch is set, any run leaves the checker's state unchanged. -/
lemma kac_run_frozen (self : KillsAfterConvergence) (ms : List ManagerView)
    (h : self.enough_conv = true) : self.run ms = self := by
  induction ms with
  | nil => rfl
  | cons m ms ih =>
    show ((self.call m).2).run ms = self
    rw [kac_call_frozen self m h]
    exact ih

/-- After a run from the initial state, either no evaluation saw the
convergence threshold and the state is untouched, or the latch is set and
`kill_count` holds the kill-set size at the first evaluation that saw it. -/
lemma kac_run_init_char (nk nc : Nat) (ms : List ManagerView) :
    (findFirst (fun v => decide (nc ≤ v.conv_counter)) ms = none ∧
      (KillsAfterConvergence.init nk nc).run ms = KillsAfterConvergence.init nk nc) ∨
    (∃ j w, findFirst (fun v => decide (nc ≤ v.conv_counter)) ms = some j ∧
      ms[j]? = some w ∧
      (KillsAfterConvergence.init nk nc).run ms =
        { n_killed := nk, n_converged := nc, enough_conv := true,
          kill_count := w.hunt_victims }) := by
  induction ms with
  | nil => exact Or.inl ⟨rfl, rfl⟩
  | cons m ms ih =>
    by_cases h : nc ≤ m.conv_counter
    · right
      refine ⟨0, m, by simp [findFirst, h], by simp, ?_⟩
      have hcall : ((KillsAfterConvergence.init nk nc).call m).2 =
          { n_killed := nk, n_converged := nc, enough_conv := true,
            kill_count := m.hunt_victims } := by
        simp [KillsAfterConvergence.call, KillsAfterConvergence.init, h]
      show (((KillsAfterConvergence.init nk nc).call m).2).run ms = _
      rw [hcall]
      exact kac_run_frozen _ ms rfl
    · have hcall : ((KillsAfterConvergence.init nk nc).call m).2 =
          KillsAfterConvergence.init nk nc := by
        simp [KillsAfterConvergence.call, KillsAfterConvergence.init, h]
      have hrun : (KillsAfterConvergence.init nk nc).run (m :: ms) =
          (KillsAfterConvergence.init nk nc).run ms := by
        show (((KillsAfterConvergence.init nk nc).call m).2).run ms = _
        rw [hcall]
      rcases ih with ⟨hnone, hst⟩ | ⟨j, w, hj, hw, hst⟩
      · left
        exact ⟨by simp [findFirst, h, hnone], by rw [hrun, hst]⟩
      · right
        exact ⟨j + 1, w, by simp [findFirst, h, hj], by simpa using hw,
          by rw [hrun, hst]⟩

/-- If no element of `l1` satisfies `p`, the first hit in `l1 ++ l2` is the
first hit in `l2`, offset by `l1`'s length. -/
lemma findFirst_append_of_none {α : Type} (p : α → Bool) (l1 l2 : List α)
    (h : findFirst p l1 = none) :
    findFirst p (l1 ++ l2) = (findFirst p l2).map (· + l1.length) := by
  induction l1 with
  | nil =>
    cases hf : findFirst p l2 <;> simp [hf]
  | cons a l1 ih =>
    by_cases ha : p a
    · simp [findFirst, ha] at h
    · have h1 : findFirst p l1 = none := by
        by_contra hne
        cases hf : findFirst p l1 with
        | none => exact hne hf
        | some j => simp [findFirst, ha, hf] at h
      cases hf : findFirst p l2 with
      | none => simp [findFirst, ha, ih h1, hf]
      | some j =>
        simp [findFirst, ha, ih h1, hf]
        omega

/-- A first hit in `l1` stays the first hit of `l1 ++ l2`. -/
lemma findFirst_append_of_some {α : Type} (p : α → Bool) (l1 l2 : List α)
    (j : Nat) (h : findFirst p l1 = some j) :
    findFirst p (l1 ++ l2) = some j := by
  induction l1 generalizing j with
  | nil => simp [findFirst] at h
  | cons a l1 ih =>
    by_cases ha : p a
    · simp [findFirst, ha] at h ⊢
      exact h
    · simp [findFirst, ha] at h ⊢
      rcases h with ⟨j0, hj0, rfl⟩
      exact ⟨j0, ih j0 hj0, rfl⟩

/-- The index of a first hit is in range. -/
lemma findFirst_lt_length {α : Type} (p : α → Bool) (l : List α) (j : Nat)
    (h : findFirst p l = some j) : j < l.length := by
  induction l generalizing j with
  | nil => simp [findFirst] at h
  | cons a l ih =>
    by_cases ha : p a
    · simp [findFirst, ha] at h
      simp only [List.length_cons]
      omega
    · simp [findFirst, ha] at h
      rcases h with ⟨j0, hj0, rfl⟩
      have := ih j0 hj0
      simp only [List.length_cons]
      omega

/-- Claim C5: `KillsAfterConvergence(n_killed, n_converged)` returns true iff
the convergence threshold has been observed (at this or an earlier
evaluation) and, relative to the kill-set size snapshotted at the first
evaluation that observed it, at least `n_killed` further workers are in the
kill set now — the baseline is snapshotted exactly once at the convergence
moment (so earlier kills are excluded) and the latch never resets. -/
theorem c5_kills_after_convergence_iff (nk nc : Nat) (ms : List ManagerView)
    (m : ManagerView) :
    ((((KillsAfterConvergence.init nk nc).run ms).call m).1 = true) ↔
      kacSpec nk nc ms m := by
  rcases kac_run_init_char nk nc ms with ⟨hnone, hrun⟩ | ⟨j, w, hj, hw, hrun⟩
  · rw [hrun]
    by_cases h : nc ≤ m.conv_counter
    · have hfind : findFirst (fun v => decide (nc ≤ v.conv_counter)) (ms ++ [m]) =
          some ms.length := by
        rw [findFirst_append_of_none _ _ _ hnone]
        simp [findFirst, h]
      have hget : (ms ++ [m])[ms.length]? = some m :=
        List.getElem?_concat_length ms m
      have hcallres : ((KillsAfterConvergence.init nk nc).call m).1 =
          decide ((nk : Int) ≤ (m.hunt_victims : Int) - (m.hunt_victims : Int)) := by
        simp [KillsAfterConvergence.call, KillsAfterConvergence.init, h]
      rw [hcallres]
      constructor
      · intro hres
        exact ⟨ms.length, m, hfind, hget, of_decide_eq_true hres⟩
      · rintro ⟨j2, w2, hj2, hw2, hineq⟩
        rw [hfind] at hj2
        injection hj2 with hj2
        subst hj2
        rw [hget] at hw2
        injection hw2 with hw2
        subst hw2
        exact decide_eq_true hineq
    · have hfind : findFirst (fun v => decide (nc ≤ v.conv_counter)) (ms ++ [m]) =
          none := by
        rw [findFirst_append_of_none _ _ _ hnone]
        simp [findFirst, h]
      have hcallres : ((KillsAfterConvergence.init nk nc).call m).1 = false := by
        simp [KillsAfterConvergence.call, KillsAfterConvergence.init, h]
      rw [hcallres]
      simp only [Bool.false_eq_true, false_iff]
      rintro ⟨j2, w2, hj2, _, _⟩
      rw [hfind] at hj2
      exact Option.noConfusion hj2
  · rw [hrun]
    have hfind := findFirst_append_of_some _ ms [m] j hj
    have hlt := findFirst_lt_length _ ms j hj
    have hget : (ms ++ [m])[j]? = some w := by
      rw [List.getElem?_append_left hlt]
      exact hw
    have hcallres : ((KillsAfterConvergence.mk nk nc true w.hunt_victims).call m).1 =
          decide ((nk : Int) ≤ (m.hunt_victims : Int) - (w.hunt_victims : Int)) := by
      simp [KillsAfterConvergence.call]
    rw [hcallres]
    constructor
    · intro hres
      exact ⟨j, w, hfind, hget, of_decide_eq_true hres⟩
    · rintro ⟨j2, w2, hj2, hw2, hineq⟩
      rw [hfind] at hj2
      injection hj2 with hj2
      subst hj2
      rw [hget] at hw2
      injection hw2 with hw2
      subst hw2
      exact decide_eq_true hineq

/-! ### Claims C4, C6, C10 — regressor caching and degradation -/

/-- A concrete fit oracle for counterexamples and witnesses. -/
def fitConst : List Int → List Int → MleResult := fun _ _ => (1, 1, 1)

/-- A sampler oracle whose `run_mcmc` always raises `ValueError`. -/
def samplerFail : List Int → List Int → Option MccResult := fun _ _ => none

/-- `estimate_mle` never touches the interval cache. -/
lemma estimate_mle_mcc_unchanged (fit : List Int → List Int → MleResult)
    (st : DataRegressor) (t y : List Int) (ck : Option Int) :
    ((estimate_mle fit st t y ck).2).mcc_cache = st.mcc_cache := by
  unfold estimate_mle
  cases hm : mleHit st ck (t, y) with
  | some r => simp [hm]
  | none =>
    cases ck with
    | none => simp [hm]
    | some k =>
      by_cases hk : k = 0
      · subst hk
        simp [hm]
      · simp [hm, hk]

/-- Claim C4, counterexample.  For the cache key `0` — a falsy `int` — the
guard `if cache_key and ...` skips the cache entirely: two calls with
identical data both run the fit (`fit_count = 2`, not `1`) and nothing is
ever stored under key `0`. -/
theorem c4_zero_key_counterexample :
    ((estimate_mle fitConst
      ((estimate_mle fitConst DataRegressor.init [1, 2] [3, 4] (some 0)).2)
      [1, 2] [3, 4] (some 0)).2).fit_count = 2 ∧
    ((estimate_mle fitConst DataRegressor.init [1, 2] [3, 4] (some 0)).2).mle_cache 0
      = none := by
  exact ⟨rfl, rfl⟩

/-- Claim C4, amended: for every *truthy* (non-`None`, non-zero) cache key,
a first call on a cache miss runs the fit once and stores the content hash
with the result; a second call with identical `(t, y)` is a pure cache hit
(same result, state unchanged, no further fit); and any change to the data —
including reordering, since the hash is over the exact sequences — misses the
cache, reruns the fit, and updates the entry. -/
theorem c4_amended_caching (fit : List Int → List Int → MleResult)
    (st : DataRegressor) (t y : List Int) (k : Int) (r1 : MleResult)
    (st1 : DataRegressor) (hk : k ≠ 0)
    (hmiss : mleHit st (some k) (t, y) = none)
    (h1 : estimate_mle fit st t y (some k) = (r1, st1)) :
    st1.fit_count = st.fit_count + 1 ∧
    st1.mle_cache k = some ⟨(t, y), r1⟩ ∧
    estimate_mle fit st1 t y (some k) = (r1, st1) ∧
    (∀ t2 y2, (t2, y2) ≠ (t, y) →
      (estimate_mle fit st1 t2 y2 (some k)).1 = fit t2 y2 ∧
      ((estimate_mle fit st1 t2 y2 (some k)).2).fit_count = st1.fit_count + 1 ∧
      ((estimate_mle fit st1 t2 y2 (some k)).2).mle_cache k =
        some ⟨(t2, y2), fit t2 y2⟩) := by
  have hsub : estimate_mle fit st t y (some k) =
      (fit t y, DataRegressor.mk (cacheWrite st.mle_cache k ⟨(t, y), fit t y⟩)
        st.mcc_cache (st.fit_count + 1) st.sampler_count) := by
    simp [estimate_mle, hmiss, hk]
  rw [hsub] at h1
  rw [Prod.mk.injEq] at h1
  obtain ⟨hr, hst⟩ := h1
  subst hr
  subst hst
  refine ⟨rfl, by simp [cacheWrite], ?_, ?_⟩
  · have hhit : mleHit (DataRegressor.mk
        (cacheWrite st.mle_cache k ⟨(t, y), fit t y⟩) st.mcc_cache
        (st.fit_count + 1) st.sampler_count) (some k) (t, y) = some (fit t y) := by
      simp [mleHit, cacheWrite, hk]
    simp [estimate_mle, hhit]
  · intro t2 y2 hne
    have hmiss2 : mleHit (DataRegressor.mk
        (cacheWrite st.mle_cache k ⟨(t, y), fit t y⟩) st.mcc_cache
        (st.fit_count + 1) st.sampler_count) (some k) (t2, y2) = none := by
      have hne2 : ((t, y) : List Int × List Int) ≠ (t2, y2) := fun h => hne h.symm
      simp [mleHit, cacheWrite, hk, hne2]
    refine ⟨?_, ?_, ?_⟩ <;> simp [estimate_mle, hmiss2, hk, cacheWrite]

/-- Claim C4, witness: the amended theorem at key `1` on concrete data from
the empty regressor state. -/
theorem c4_amended_caching_witness :
    (1 : Int) ≠ 0 ∧
    mleHit DataRegressor.init (some 1) ([1], [2]) = none ∧
    estimate_mle fitConst
        ((estimate_mle fitConst DataRegressor.init [1] [2] (some 1)).2)
        [1] [2] (some 1) =
      ((estimate_mle fitConst DataRegressor.init [1] [2] (some 1)).1,
        (estimate_mle fitConst DataRegressor.init [1] [2] (some 1)).2) := by
  refine ⟨by decide, rfl, ?_⟩
  exact (c4_amended_caching fitConst DataRegressor.init [1] [2] 1
    (estimate_mle fitConst DataRegressor.init [1] [2] (some 1)).1
    (estimate_mle fitConst DataRegressor.init [1] [2] (some 1)).2
    (by decide) rfl rfl).2.2.1

/-- Claim C10: caching is gated on the *truthiness* of `cache_key`.  With
`cache_key` equal to `None` or `0`, `estimate_mle` ignores its cache — it
returns a fresh fit and only bumps the fit counter, leaving both caches
untouched even when a matching entry exists — and `estimate_parameters`
likewise reruns the sampler and leaves both caches unchanged. -/
theorem c10_falsy_key_no_caching (fit : List Int → List Int → MleResult)
    (sampler : List Int → List Int → Option MccResult) (st : DataRegressor)
    (t y : List Int) (parms : Option Parm) (ck : Option Int)
    (h : ck = none ∨ ck = some 0) :
    estimate_mle fit st t y ck =
      (fit t y, { st with fit_count := st.fit_count + 1 }) ∧
    ((estimate_parameters fit sampler st t y parms ck).2.mle_cache = st.mle_cache ∧
      (estimate_parameters fit sampler st t y parms ck).2.mcc_cache = st.mcc_cache ∧
      (estimate_parameters fit sampler st t y parms ck).2.sampler_count =
        st.sampler_count + 1) := by
  have hmle : ∀ st0 : DataRegressor, estimate_mle fit st0 t y ck =
      (fit t y, { st0 with fit_count := st0.fit_count + 1 }) := by
    intro st0
    rcases h with rfl | rfl
    · simp [estimate_mle, mleHit]
    · simp [estimate_mle, mleHit]
  refine ⟨hmle st, ?_⟩
  have hmcc : mccHit st ck (t, y) = none := by
    rcases h with rfl | rfl
    · rfl
    · simp [mccHit]
  rcases h with rfl | rfl
  · cases hs : sampler t y with
    | none =>
      rcases parms with _ | p
      · simp [estimate_parameters, hmcc, hs, hmle]
      · cases p <;> simp [estimate_parameters, hmcc, hs, hmle]
    | some res =>
      rcases parms with _ | p
      · simp [estimate_parameters, hmcc, hs]
      · cases p <;> simp [estimate_parameters, hmcc, hs]
  · cases hs : sampler t y with
    | none =>
      rcases parms with _ | p
      · simp [estimate_parameters, hmcc, hs, hmle]
      · cases p <;> simp [estimate_parameters, hmcc, hs, hmle]
    | some res =>
      rcases parms with _ | p
      · simp [estimate_parameters, hmcc, hs]
      · cases p <;> simp [estimate_parameters, hmcc, hs]

/-- Claim C10, witness: both falsy keys at concrete data; the cache is left
empty and the counters advance. -/
theorem c10_falsy_key_no_caching_witness :
    ((some 0 : Option Int) = none ∨ (some 0 : Option Int) = some 0) ∧
    estimate_mle fitConst DataRegressor.init [1, 2] [3, 4] (some 0) =
      ((1, 1, 1),
        { DataRegressor.init with fit_count := DataRegressor.init.fit_count + 1 }) ∧
    (estimate_parameters fitConst samplerFail DataRegressor.init [1, 2] [3, 4]
      none (some 0)).2.mcc_cache = DataRegressor.init.mcc_cache := by
  refine ⟨Or.inr rfl, ?_, ?_⟩
  · exact (c10_falsy_key_no_caching fitConst samplerFail DataRegressor.init
      [1, 2] [3, 4] none (some 0) (Or.inr rfl)).1
  · exact (c10_falsy_key_no_caching fitConst samplerFail DataRegressor.init
      [1, 2] [3, 4] none (some 0) (Or.inr rfl)).2.2.1

/-! ### Claim C6 — degraded interval estimation -/

/-- Claim C6, counterexample.  On sampler failure with the truthy cache key
`7`, the call does fall back to the point-estimate pairs, but the interval
cache (`mcc_cache`) is *not* written — the degraded path returns before the
`self.mcc_cache[cache_key] = ...` line; only the point cache (`mle_cache`)
receives the fallback fit.  The claim's "writes the degraded result to the
interval cache under the given cache key" is false. -/
theorem c6_no_interval_cache_write_counterexample :
    (estimate_parameters fitConst samplerFail DataRegressor.init [1, 2] [3, 4]
      none (some 7)).1 = EPReturn.degraded 1 1 1 ∧
    ((estimate_parameters fitConst samplerFail DataRegressor.init [1, 2] [3, 4]
      none (some 7)).2).mcc_cache 7 = none ∧
    ((estimate_parameters fitConst samplerFail DataRegressor.init [1, 2] [3, 4]
      none (some 7)).2).mle_cache 7 = some ⟨([1, 2], [3, 4]), (1, 1, 1)⟩ := by
  exact ⟨rfl, rfl, rfl⟩

/-- Claim C6, amended: whenever the MCMC sampler fails inside
`estimate_parameters` (on an interval-cache miss), the call falls back to
`estimate_mle` — returning, for each requested parameter, the pair
`(value, None)` — and signals a non-fatal `RuntimeWarning` instead of
raising; but the degraded result is *not* written to the interval cache,
which is left unchanged (the fallback's point estimate is cached by
`estimate_mle` under its own semantics). -/
theorem c6_amended_degraded_fallback (fit : List Int → List Int → MleResult)
    (sampler : List Int → List Int → Option MccResult) (st : DataRegressor)
    (t y : List Int) (ck : Option Int) (b c s : Int) (st2 : DataRegressor)
    (hs : sampler t y = none)
    (hmiss : mccHit st ck (t, y) = none)
    (hmle : estimate_mle fit { st with sampler_count := st.sampler_count + 1 }
      t y ck = ((b, c, s), st2)) :
    estimate_parameters fit sampler st t y none ck =
      (EPReturn.degraded b c s, st2) ∧
    estimate_parameters fit sampler st t y (some Parm.decay) ck =
      (EPReturn.degradedSingle b, st2) ∧
    estimate_parameters fit sampler st t y (some Parm.asymptote) ck =
      (EPReturn.degradedSingle c, st2) ∧
    estimate_parameters fit sampler st t y (some Parm.noise) ck =
      (EPReturn.degradedSingle s, st2) ∧
    st2.mcc_cache = st.mcc_cache := by
  refine ⟨?_, ?_, ?_, ?_, ?_⟩
  · simp [estimate_parameters, hmiss, hs, hmle]
  · simp [estimate_parameters, hmiss, hs, hmle]
  · simp [estimate_parameters, hmiss, hs, hmle]
  · simp [estimate_parameters, hmiss, hs, hmle]
  · have hunch := estimate_mle_mcc_unchanged fit
      { st with sampler_count := st.sampler_count + 1 } t y ck
    rw [hmle] at hunch
    exact hunch

/-- Claim C6, witness: the amended theorem at the failing sampler, key `7`,
and concrete data. -/
theorem c6_amended_degraded_fallback_witness :
    samplerFail [1, 2] [3, 4] = none ∧
    mccHit DataRegressor.init (some 7) ([1, 2], [3, 4]) = none ∧
    estimate_parameters fitConst samplerFail DataRegressor.init [1, 2] [3, 4]
        none (some 7) =
      (EPReturn.degraded 1 1 1,
        (estimate_mle fitConst
          { DataRegressor.init with
              sampler_count := DataRegressor.init.sampler_count + 1 }
          [1, 2] [3, 4] (some 7)).2) := by
  refine ⟨rfl, rfl, ?_⟩
  exact (c6_amended_degraded_fallback fitConst samplerFail DataRegressor.init
    [1, 2] [3, 4] (some 7) 1 1 1
    (estimate_mle fitConst
      { DataRegressor.init with
          sampler_count := DataRegressor.init.sampler_count + 1 }
      [1, 2] [3, 4] (some 7)).2
    rfl rfl rfl).1

/-! ### Claim C3 — checkpoint count resolution -/

/-- A `CheckpointingControl` with the template of the claim. -/
def c3Ctrl : CheckpointingControl :=
  { naming_format := "%(date)%(count)", count := none }

/-- A fixed call time. -/
def c3Now : PyDateTime :=
  { year := 2026, month := 10, day := 12, hour := 0, minute := 0, second := 0 }

/-- Claim C3, behaviour of the code at the failing input.  `get_name`
*recomputes* `self.count` from the directory scan on every call, overwriting
the post-incremented counter before it is ever read — so three successive
calls against an empty directory all yield count `000` (not `000, 001, 002`
as claimed): in-process calls do collide until a matching directory entry is
actually created.  The directory-driven part of the claim does hold: once an
entry with count `005` exists, the next call yields `006`. -/
theorem c3_count_rescan_collision :
    (get_name c3Ctrl c3Now (some [])).1 = "20261012000" ∧
    (get_name (get_name c3Ctrl c3Now (some [])).2 c3Now (some [])).1
      = "20261012000" ∧
    (get_name (get_name (get_name c3Ctrl c3Now (some [])).2 c3Now (some [])).2
      c3Now (some [])).1 = "20261012000" ∧
    (get_name c3Ctrl c3Now (some ["20260101005"])).1 = "20261012006" := by
  exact ⟨rfl, rfl, rfl, rfl⟩

/-! ### Claim C9 — `matches_naming_format` is a prefix match -/

/-- Every emitted regex atom consumes a fixed-width prefix, so a successful
match is preserved by appending arbitrary characters to the subject. -/
lemma matchToks_append (toks : List RTok) :
    ∀ (xs ys : List Char) (g r : Option Nat),
      matchToks toks xs g = some r → matchToks toks (xs ++ ys) g = some r := by
  induction toks with
  | nil =>
    intro xs ys g r h
    simpa using h
  | cons tk ts ih =>
    intro xs ys g r h
    cases tk with
    | lit c =>
      cases xs with
      | nil => simp [matchToks] at h
      | cons x xs =>
        simp only [matchToks, List.cons_append] at h ⊢
        by_cases hx : x = c
        · rw [if_pos hx] at h ⊢
          exact ih xs ys g r h
        · rw [if_neg hx] at h
          cases h
    | digits n =>
      simp only [matchToks] at h ⊢
      by_cases hcond : (xs.take n).length = n ∧ (xs.take n).all Char.isDigit
      · have hn : n ≤ xs.length := by
          have h1 := hcond.1
          rw [List.length_take] at h1
          omega
        have htake : (xs ++ ys).take n = xs.take n :=
          List.take_append_of_le_length hn
        have hdrop : (xs ++ ys).drop n = xs.drop n ++ ys :=
          List.drop_append_of_le_length hn
        rw [if_pos hcond] at h
        rw [htake, hdrop, if_pos hcond]
        exact ih _ ys g r h
      · rw [if_neg hcond] at h
        cases h
    | countGroup =>
      simp only [matchToks] at h ⊢
      by_cases hcond : (xs.take 3).length = 3 ∧ (xs.take 3).all Char.isDigit
      · have hn : 3 ≤ xs.length := by
          have h1 := hcond.1
          rw [List.length_take] at h1
          omega
        have htake : (xs ++ ys).take 3 = xs.take 3 :=
          List.take_append_of_le_length hn
        have hdrop : (xs ++ ys).drop 3 = xs.drop 3 ++ ys :=
          List.drop_append_of_le_length hn
        rw [if_pos hcond] at h
        rw [htake, hdrop, if_pos hcond]
        exact ih _ ys (some (digitsToNat (xs.take 3))) r h
      · rw [if_neg hcond] at h
        cases h

/-- `reMatch` is stable under extending the subject. -/
lemma reMatch_append (pattern xs ys : List Char) (r : Option Nat)
    (h : reMatch pattern xs = some r) : reMatch pattern (xs ++ ys) = some r := by
  unfold reMatch at h ⊢
  split at h
  · next toks hp =>
    exact matchToks_append toks xs ys none r h
  · cases h

/-- Claim C9: `matches_naming_format` uses `re.match` without an end anchor,
so it is a prefix match — any string extending a matching name still
matches, and such directory entries are classified as checkpoints of this
naming scheme. -/
theorem c9_prefix_match (ctrl : CheckpointingControl) (s u : String)
    (h : matches_naming_format ctrl s = true) :
    matches_naming_format ctrl (s ++ u) = true := by
  unfold matches_naming_format at h ⊢
  cases hm : reMatch ctrl.naming_format_re s.data with
  | none =>
    rw [hm] at h
    cases h
  | some r =>
    have hdata : (s ++ u).data = s.data ++ u.data := rfl
    rw [hdata, reMatch_append ctrl.naming_format_re s.data u.data r hm]
    rfl

/-- Claim C9, witness: `"a_123"` matches the scheme `"a_%(count)"`, and so
does its extension by `"xy"`. -/
theorem c9_prefix_match_witness :
    matches_naming_format { naming_format := "a_%(count)", count := none }
      "a_123" = true ∧
    matches_naming_format { naming_format := "a_%(count)", count := none }
      ("a_123" ++ "xy") = true := by
  refine ⟨by decide, ?_⟩
  exact c9_prefix_match { naming_format := "a_%(count)", count := none }
    "a_123" "xy" (by decide)

/-! ### Claim C8 — naming round-trip -/

/-- The `CheckpointingControl` of the count-overflow scenario: literal text
follows the `%(count)` token. -/
def c8Ctrl : CheckpointingControl :=
  { naming_format := "a_%(count)_b", count := none }

/-- Claim C8, counterexample.  `%(count)` is zero-padded *to* three digits
but not truncated: once an entry with count `999` exists, the next resolved
count is `1000`, rendered with four digits, and the derived pattern — whose
group is exactly `[0-9]{3}` followed by the literal `_b` — no longer matches
the very name `get_name` just produced.  The round-trip claim fails. -/
theorem c8_count_overflow_counterexample :
    matches_naming_format c8Ctrl "a_999_b" = true ∧
    (get_name c8Ctrl c3Now (some ["a_999_b"])).1 = "a_1000_b" ∧
    matches_naming_format c8Ctrl (get_name c8Ctrl c3Now (some ["a_999_b"])).1
      = false := by
  exact ⟨rfl, rfl, rfl⟩

/-- If a pattern's first character does not occur in the subject, `replace`
leaves the subject unchanged. -/
lemma pyReplaceF_not_mem (pat rep : List Char) (c0 : Char)
    (hpat : pat.head? = some c0) :
    ∀ (fuel : Nat) (s : List Char), c0 ∉ s → pyReplaceF pat rep fuel s = s := by
  intro fuel
  induction fuel with
  | zero =>
    intro s _
    cases s <;> rfl
  | succ fuel ih =>
    intro s hmem
    cases s with
    | nil => rfl
    | cons c rest =>
      cases pat with
      | nil => simp at hpat
      | cons p0 pt =>
        have hp0 : p0 = c0 := by
          simp [List.head?] at hpat
          exact hpat
        have hc : c ≠ p0 := by
          rw [hp0]
          intro hcc
          exact hmem (by rw [← hcc]; exact List.mem_cons_self c rest)
        have hpre : (p0 :: pt).isPrefixOf (c :: rest) = false := by
          simp [List.isPrefixOf]
          intro hpc
          exact absurd hpc.symm hc
        simp only [pyReplaceF, hpre, Bool.false_eq_true, if_false]
        rw [ih rest (fun hm => hmem (List.mem_cons_of_mem c hm))]

/-- `str.replace` version of `pyReplaceF_not_mem`. -/
lemma pyReplace_not_mem (pat rep s : List Char) (c0 : Char)
    (hpat : pat.head? = some c0) (h : c0 ∉ s) : pyReplace pat rep s = s := by
  cases pat with
  | nil => rfl
  | cons p0 pt => exact pyReplaceF_not_mem _ _ c0 hpat _ s h

/-- When the pattern's first character does not occur in `a`, replacement on
`a ++ b` leaves `a` intact and proceeds on `b` (no occurrence can start in
`a`, and none can straddle the boundary). -/
lemma pyReplaceF_append_left (pat rep : List Char) (c0 : Char)
    (hpat : pat.head? = some c0) :
    ∀ (a b : List Char) (fuel2 : Nat), c0 ∉ a →
      pyReplaceF pat rep (a.length + fuel2) (a ++ b) =
        a ++ pyReplaceF pat rep fuel2 b := by
  intro a
  induction a with
  | nil =>
    intro b fuel2 _
    simp
  | cons c arest ih =>
    intro b fuel2 hmem
    cases pat with
    | nil => simp at hpat
    | cons p0 pt =>
      have hp0 : p0 = c0 := by
        simp [List.head?] at hpat
        exact hpat
      have hc : c ≠ p0 := by
        rw [hp0]
        intro hcc
        exact hmem (by rw [← hcc]; exact List.mem_cons_self c arest)
      have hpre : (p0 :: pt).isPrefixOf (c :: (arest ++ b)) = false := by
        simp [List.isPrefixOf]
        intro hpc
        exact absurd hpc.symm hc
      have hlen : (c :: arest).length + fuel2 = (arest.length + fuel2) + 1 := by
        simp [List.length_cons]
        omega
      rw [hlen]
      show pyReplaceF (p0 :: pt) rep ((arest.length + fuel2) + 1)
        (c :: (arest ++ b)) = _
      simp only [pyReplaceF, hpre, Bool.false_eq_true, if_false]
      rw [ih b fuel2 (fun hm => hmem (List.mem_cons_of_mem c hm))]
      rfl

/-- `str.replace` version of `pyReplaceF_append_left`. -/
lemma pyReplace_append_left (pat rep a b : List Char) (c0 : Char)
    (hpat : pat.head? = some c0) (h : c0 ∉ a) :
    pyReplace pat rep (a ++ b) = a ++ pyReplace pat rep b := by
  cases pat with
  | nil => rfl
  | cons p0 pt =>
    show pyReplaceF (p0 :: pt) rep (a ++ b).length (a ++ b) =
      a ++ pyReplaceF (p0 :: pt) rep b.length b
    rw [List.length_append]
    exact pyReplaceF_append_left (p0 :: pt) rep c0 hpat a b b.length h

/-- Digits of numbers below ten are digit characters. -/
lemma digitChar_isDigit (n : Nat) (h : n < 10) :
    (Nat.digitChar n).isDigit = true := by
  interval_cases n <;> decide

/-- Every character of a decimal rendering is a digit. -/
lemma natCharsF_all_digits :
    ∀ (fuel n : Nat), ∀ c ∈ natCharsF fuel n, c.isDigit = true := by
  intro fuel
  induction fuel with
  | zero =>
    intro n c hc
    simp [natCharsF] at hc
  | succ fuel ih =>
    intro n c hc
    by_cases h : n < 10
    · simp [natCharsF, h] at hc
      rw [hc]
      exact digitChar_isDigit n h
    · simp [natCharsF, h] at hc
      rcases hc with hc | hc
      · exact ih _ c hc
      · rw [hc]
        exact digitChar_isDigit _ (Nat.mod_lt _ (by omega))

/-- A number below `10 ^ w` renders in at most `w` digits. -/
lemma natCharsF_length_le :
    ∀ (w fuel n : Nat), n < 10 ^ w → 1 ≤ w →
      (natCharsF fuel n).length ≤ w := by
  intro w
  induction w with
  | zero =>
    intro fuel n _ h1
    omega
  | succ w ih =>
    intro fuel n h h1
    cases fuel with
    | zero => simp [natCharsF]
    | succ fuel =>
      by_cases hn : n < 10
      · simp [natCharsF, hn]
      · have hw : 1 ≤ w := by
          by_contra hw0
          have hweq : w = 0 := by omega
          subst hweq
          have h10 : n < 10 := by simpa using h
          exact hn h10
        have hdiv : n / 10 < 10 ^ w := by
          apply Nat.div_lt_of_lt_mul
          have hmul : (10 : Nat) * 10 ^ w = 10 ^ (w + 1) := by
            rw [pow_succ, mul_comm]
          rw [hmul]
          exact h
        simp [natCharsF, hn]
        have := ih fuel (n / 10) hdiv hw
        omega

/-- Zero-padding to width `w` gives exactly `w` characters when the number
fits. -/
lemma padNum_length (w n : Nat) (h : n < 10 ^ w) (h1 : 1 ≤ w) :
    (padNum w n).length = w := by
  unfold padNum natChars
  have hle := natCharsF_length_le w (n + 1) n h h1
  rw [List.length_append, List.length_replicate]
  omega

/-- Every character of a zero-padded number is a digit. -/
lemma padNum_all_digits (w n : Nat) : ∀ c ∈ padNum w n, c.isDigit = true := by
  intro c hc
  unfold padNum natChars at hc
  rw [List.mem_append] at hc
  rcases hc with hc | hc
  · rw [List.eq_of_mem_replicate hc]
    decide
  · exact natCharsF_all_digits _ _ c hc

/-- `'%'` never occurs in a zero-padded number. -/
lemma percent_not_mem_padNum (w n : Nat) : '%' ∉ padNum w n := by
  intro hm
  have := padNum_all_digits w n '%' hm
  exact absurd this (by decide)

/-- `'%'` never occurs in a `strftime` date field. -/
lemma percent_not_mem_dateChars (now : PyDateTime) : '%' ∉ dateChars now := by
  unfold dateChars
  intro hm
  rcases List.mem_append.mp hm with h1 | h1
  · rcases List.mem_append.mp h1 with h2 | h2
    · exact percent_not_mem_padNum 4 now.year h2
    · exact percent_not_mem_padNum 2 now.month h2
  · exact percent_not_mem_padNum 2 now.day h1

/-- `'%'` never occurs in a `strftime` time field. -/
lemma percent_not_mem_timeChars (now : PyDateTime) : '%' ∉ timeChars now := by
  unfold timeChars
  intro hm
  rcases List.mem_append.mp hm with h1 | h1
  · rcases List.mem_append.mp h1 with h2 | h2
    · exact percent_not_mem_padNum 2 now.hour h2
    · exact percent_not_mem_padNum 2 now.minute h2
  · exact percent_not_mem_padNum 2 now.second h1

/-- Literal tokens, as the parser produces for plain text. -/
def litToks (cs : List Char) : List RTok :=
  cs.map RTok.lit

/-- Matching literal tokens consumes exactly their text. -/
lemma matchToks_litToks (cs : List Char) :
    ∀ (ts : List RTok) (xs : List Char) (g : Option Nat),
      matchToks (litToks cs ++ ts) (cs ++ xs) g = matchToks ts xs g := by
  induction cs with
  | nil => intro ts xs g; rfl
  | cons c cs ih =>
    intro ts xs g
    show matchToks (RTok.lit c :: (litToks cs ++ ts)) (c :: (cs ++ xs)) g = _
    simp only [matchToks, if_pos rfl]
    exact ih ts xs g

/-- Matching a `[0-9]{n}` token consumes exactly an `n`-digit block. -/
lemma matchToks_digits_cons (n : Nat) (ds : List Char) (hlen : ds.length = n)
    (hdig : ∀ c ∈ ds, c.isDigit = true) :
    ∀ (ts : List RTok) (xs : List Char) (g : Option Nat),
      matchToks (RTok.digits n :: ts) (ds ++ xs) g = matchToks ts xs g := by
  intro ts xs g
  have htake : (ds ++ xs).take n = ds := by
    rw [← hlen]
    exact List.take_left ds xs
  have hdrop : (ds ++ xs).drop n = xs := by
    rw [← hlen]
    exact List.drop_left ds xs
  have hcond : ((ds ++ xs).take n).length = n ∧
      ((ds ++ xs).take n).all Char.isDigit := by
    constructor
    · rw [htake, hlen]
    · rw [htake]
      exact List.all_eq_true.mpr hdig
  simp only [matchToks, if_pos hcond, hdrop]

/-- Matching the count group consumes exactly a 3-digit block and records its
value. -/
lemma matchToks_group_cons (ds : List Char) (hlen : ds.length = 3)
    (hdig : ∀ c ∈ ds, c.isDigit = true) :
    ∀ (ts : List RTok) (xs : List Char) (g : Option Nat),
      matchToks (RTok.countGroup :: ts) (ds ++ xs) g =
        matchToks ts xs (some (digitsToNat ds)) := by
  intro ts xs g
  have htake : (ds ++ xs).take 3 = ds := by
    rw [← hlen]
    exact List.take_left ds xs
  have hdrop : (ds ++ xs).drop 3 = xs := by
    rw [← hlen]
    exact List.drop_left ds xs
  have hcond : ((ds ++ xs).take 3).length = 3 ∧
      ((ds ++ xs).take 3).all Char.isDigit := by
    constructor
    · rw [htake, hlen]
    · rw [htake]
      exact List.all_eq_true.mpr hdig
  simp only [matchToks, if_pos hcond, hdrop, htake]
  rw [if_pos ⟨hlen, List.all_eq_true.mpr hdig⟩]

/-- Without a count group in the pattern, a successful match never changes
the recorded group value. -/
lemma matchToks_no_group (toks : List RTok) (hng : RTok.countGroup ∉ toks) :
    ∀ (xs : List Char) (g r : Option Nat),
      matchToks toks xs g = some r → r = g := by
  induction toks with
  | nil =>
    intro xs g r h
    simp only [matchToks] at h
    injection h with h
    exact h.symm
  | cons tk ts ih =>
    have hng2 : RTok.countGroup ∉ ts := fun hm => hng (List.mem_cons_of_mem tk hm)
    intro xs g r h
    cases tk with
    | lit c =>
      cases xs with
      | nil => simp [matchToks] at h
      | cons x xs =>
        simp only [matchToks] at h
        by_cases hx : x = c
        · rw [if_pos hx] at h
          exact ih hng2 xs g r h
        · rw [if_neg hx] at h
          cases h
    | digits n =>
      simp only [matchToks] at h
      by_cases hcond : (xs.take n).length = n ∧ (xs.take n).all Char.isDigit
      · rw [if_pos hcond] at h
        exact ih hng2 _ g r h
      · rw [if_neg hcond] at h
        cases h
    | countGroup =>
      exact absurd (List.mem_cons_self _ _) hng

/-- A pattern without a count group never matches an index, so the resolved
count is `0` whatever the directory holds. -/
lemma scanCount_no_group (ctrl : CheckpointingControl) (toks : List RTok)
    (hp : parseRe ctrl.naming_format_re = some toks)
    (hng : RTok.countGroup ∉ toks) (dir : Option (List String)) :
    scanCount ctrl dir = 0 := by
  cases dir with
  | none => rfl
  | some entries =>
    simp only [scanCount]
    have hfold : ∀ (l : List String) (mx : Int),
        l.foldl (fun mx e =>
          match reMatch ctrl.naming_format_re e.data with
          | some (some i) => if (i : Int) > mx then (i : Int) else mx
          | _ => mx) mx = mx := by
      intro l
      induction l with
      | nil => intro mx; rfl
      | cons e l ih =>
        intro mx
        rw [List.foldl_cons]
        have hstep : (match reMatch ctrl.naming_format_re e.data with
            | some (some i) => if (i : Int) > mx then (i : Int) else mx
            | _ => mx) = mx := by
          cases hr : reMatch ctrl.naming_format_re e.data with
          | none => rfl
          | some r =>
            cases r with
            | none => rfl
            | some i =>
              exfalso
              unfold reMatch at hr
              rw [hp] at hr
              have hri := matchToks_no_group toks hng e.data none (some i) hr
              cases hri
        rw [hstep]
        exact ih mx
    rw [hfold entries (-1)]
    decide

/-- The count resolved by the directory scan is never negative. -/
lemma scanCount_nonneg (ctrl : CheckpointingControl)
    (dir : Option (List String)) : 0 ≤ scanCount ctrl dir := by
  cases dir with
  | none => simp [scanCount]
  | some entries =>
    simp only [scanCount]
    have hfold : ∀ (l : List String) (mx : Int),
        mx ≤ l.foldl (fun mx e =>
          match reMatch ctrl.naming_format_re e.data with
          | some (some i) => if (i : Int) > mx then (i : Int) else mx
          | _ => mx) mx := by
      intro l
      induction l with
      | nil => intro mx; exact le_refl mx
      | cons e l ih =>
        intro mx
        rw [List.foldl_cons]
        refine le_trans ?_ (ih _)
        cases hr : reMatch ctrl.naming_format_re e.data with
        | none => exact le_refl mx
        | some r =>
          cases r with
          | none => exact le_refl mx
          | some i =>
            by_cases hgt : (i : Int) > mx
            · simp only [if_pos hgt]
              omega
            · simp only [if_neg hgt]
              exact le_refl mx
    have h2 := hfold entries (-1)
    omega

/-- A list is a prefix of itself followed by anything. -/
lemma isPrefixOf_self_append (l b : List Char) : l.isPrefixOf (l ++ b) = true := by
  induction l with
  | nil => simp [List.isPrefixOf]
  | cons c l ih => simp [List.isPrefixOf, ih]

/-- Any sufficient fuel computes the same replacement. -/
lemma pyReplaceF_fuel_irrel (pat rep : List Char) :
    ∀ (f1 : Nat), ∀ (f2 : Nat) (s : List Char), s.length ≤ f1 → s.length ≤ f2 →
      pyReplaceF pat rep f1 s = pyReplaceF pat rep f2 s := by
  intro f1
  induction f1 with
  | zero =>
    intro f2 s h1 _
    have hs : s = [] := List.length_eq_zero.mp (by omega)
    subst hs
    cases f2 <;> rfl
  | succ f1 ih =>
    intro f2 s h1 h2
    cases s with
    | nil => cases f2 <;> rfl
    | cons c rest =>
      cases f2 with
      | zero => simp at h2
      | succ f2 =>
        simp only [pyReplaceF]
        by_cases hpre : pat.isPrefixOf (c :: rest) = true
        · rw [hpre]
          simp only [if_true]
          have hlen : (List.drop (pat.length - 1) rest).length ≤ rest.length := by
            rw [List.length_drop]
            omega
          rw [ih f2 (List.drop (pat.length - 1) rest)
            (by simp at h1; omega) (by simp at h2; omega)]
        · rw [Bool.not_eq_true] at hpre
          rw [hpre]
          simp only [Bool.false_eq_true, if_false]
          rw [ih f2 rest (by simp at h1; omega) (by simp at h2; omega)]

/-- Replacing at an occurrence sitting at the front: the pattern is consumed,
the replacement emitted, and scanning continues after it. -/
lemma pyReplace_prefix_match (pat rep b : List Char) (hpat : pat ≠ []) :
    pyReplace pat rep (pat ++ b) = rep ++ pyReplace pat rep b := by
  cases pat with
  | nil => exact absurd rfl hpat
  | cons p0 pt =>
    show pyReplaceF (p0 :: pt) rep ((p0 :: pt) ++ b).length ((p0 :: pt) ++ b) =
      rep ++ pyReplaceF (p0 :: pt) rep b.length b
    have hlen : ((p0 :: pt) ++ b).length = (pt ++ b).length + 1 := by
      simp
    rw [hlen]
    show pyReplaceF (p0 :: pt) rep ((pt ++ b).length + 1) (p0 :: (pt ++ b)) = _
    have hpre : (p0 :: pt).isPrefixOf (p0 :: (pt ++ b)) = true :=
      isPrefixOf_self_append (p0 :: pt) b
    simp only [pyReplaceF, hpre, if_true]
    have hdrop : List.drop ((p0 :: pt).length - 1) (pt ++ b) = b := by
      simp only [List.length_cons, Nat.add_sub_cancel]
      exact List.drop_left pt b
    rw [hdrop]
    rw [pyReplaceF_fuel_irrel (p0 :: pt) rep ((pt ++ b).length) b.length b
      (by simp) (le_refl _)]

/-- Whether `pat` occurs anywhere in the subject. -/
def occursIn (pat : List Char) : List Char → Bool
  | [] => false
  | c :: rest => pat.isPrefixOf (c :: rest) || occursIn pat rest

/-- A pattern that occurs nowhere leaves replacement as the identity. -/
lemma pyReplaceF_no_occurrence (pat rep : List Char) :
    ∀ (fuel : Nat) (s : List Char), occursIn pat s = false →
      pyReplaceF pat rep fuel s = s := by
  intro fuel
  induction fuel with
  | zero =>
    intro s _
    cases s <;> rfl
  | succ fuel ih =>
    intro s hocc
    cases s with
    | nil => rfl
    | cons c rest =>
      simp only [occursIn, Bool.or_eq_false_iff] at hocc
      simp only [pyReplaceF, hocc.1, Bool.false_eq_true, if_false]
      rw [ih rest hocc.2]

/-- `str.replace` version of `pyReplaceF_no_occurrence`. -/
lemma pyReplace_no_occurrence (pat rep s : List Char)
    (h : occursIn pat s = false) : pyReplace pat rep s = s := by
  cases pat with
  | nil => rfl
  | cons p0 pt => exact pyReplaceF_no_occurrence _ _ _ s h

/-- `'%'` does not occur in the concatenation of `'%'`-free parts. -/
lemma percent_not_mem_append (a b : List Char) (ha : '%' ∉ a) (hb : '%' ∉ b) :
    '%' ∉ a ++ b := by
  intro hm
  rcases List.mem_append.mp hm with h | h
  · exact ha h
  · exact hb h

/-- `getNameStr` on the default naming format: the date and time tokens are
expanded in place and nothing else changes. -/
lemma getNameStr_fmt1 (now : PyDateTime) :
    getNameStr "glompo_checkpoint_%(date)_%(time)".data now =
      "glompo_checkpoint_".data ++ (dateChars now ++
        ("_".data ++ (timeChars now ++ []))) := by
  have hsplit : "glompo_checkpoint_%(date)_%(time)".data =
      "glompo_checkpoint_".data ++ ("%(date)".data ++ "_%(time)".data) := by
    decide
  have hA : '%' ∉ "glompo_checkpoint_".data := by decide
  have hD : '%' ∉ dateChars now := percent_not_mem_dateChars now
  have hT : '%' ∉ timeChars now := percent_not_mem_timeChars now
  have e1 : pyReplace "%(date)".data (dateChars now)
      "glompo_checkpoint_%(date)_%(time)".data =
      "glompo_checkpoint_".data ++ (dateChars now ++ "_%(time)".data) := by
    rw [hsplit]
    rw [pyReplace_append_left "%(date)".data (dateChars now)
      "glompo_checkpoint_".data ("%(date)".data ++ "_%(time)".data) '%'
      (by decide) hA]
    rw [pyReplace_prefix_match "%(date)".data (dateChars now) "_%(time)".data
      (by decide)]
    rw [pyReplace_no_occurrence "%(date)".data (dateChars now) "_%(time)".data
      (by decide)]
  have eskip : ∀ (pat : List Char) (rep : List Char),
      pat.head? = some '%' →
      occursIn pat "_%(time)".data = false →
      pyReplace pat rep ("glompo_checkpoint_".data ++
          (dateChars now ++ "_%(time)".data)) =
        "glompo_checkpoint_".data ++ (dateChars now ++ "_%(time)".data) := by
    intro pat rep hpat hocc
    rw [pyReplace_append_left pat rep "glompo_checkpoint_".data
      (dateChars now ++ "_%(time)".data) '%' hpat hA]
    rw [pyReplace_append_left pat rep (dateChars now) "_%(time)".data '%'
      hpat hD]
    rw [pyReplace_no_occurrence pat rep "_%(time)".data hocc]
  have e6 : pyReplace "%(time)".data (timeChars now)
      ("glompo_checkpoint_".data ++ (dateChars now ++ "_%(time)".data)) =
      "glompo_checkpoint_".data ++ (dateChars now ++
        ("_".data ++ (timeChars now ++ []))) := by
    rw [pyReplace_append_left "%(time)".data (timeChars now)
      "glompo_checkpoint_".data (dateChars now ++ "_%(time)".data) '%'
      (by decide) hA]
    rw [pyReplace_append_left "%(time)".data (timeChars now) (dateChars now)
      "_%(time)".data '%' (by decide) hD]
    rw [show "_%(time)".data = "_".data ++ ("%(time)".data ++ []) from by decide]
    rw [pyReplace_append_left "%(time)".data (timeChars now) "_".data
      ("%(time)".data ++ []) '%' (by decide) (by decide)]
    rw [pyReplace_prefix_match "%(time)".data (timeChars now) [] (by decide)]
    rfl
  have hfull : '%' ∉ "glompo_checkpoint_".data ++ (dateChars now ++
      ("_".data ++ (timeChars now ++ []))) := by
    refine percent_not_mem_append _ _ hA (percent_not_mem_append _ _ hD
      (percent_not_mem_append _ _ (by decide)
        (percent_not_mem_append _ _ hT (by decide))))
  have eskip2 : ∀ (pat : List Char) (rep : List Char),
      pat.head? = some '%' →
      pyReplace pat rep ("glompo_checkpoint_".data ++ (dateChars now ++
          ("_".data ++ (timeChars now ++ [])))) =
        "glompo_checkpoint_".data ++ (dateChars now ++
          ("_".data ++ (timeChars now ++ []))) := by
    intro pat rep hpat
    exact pyReplace_not_mem pat rep _ '%' hpat hfull
  simp only [getNameStr]
  rw [e1]
  rw [eskip "%(year)".data (padNum 4 now.year) (by decide) (by decide)]
  rw [eskip "%(yr)".data (padNum 2 (now.year % 100)) (by decide) (by decide)]
  rw [eskip "%(month)".data (padNum 2 now.month) (by decide) (by decide)]
  rw [eskip "%(day)".data (padNum 2 now.day) (by decide) (by decide)]
  rw [e6]
  rw [eskip2 "%(hour)".data (padNum 2 now.hour) (by decide)]
  rw [eskip2 "%(min)".data (padNum 2 now.minute) (by decide)]
  rw [eskip2 "%(sec)".data (padNum 2 now.second) (by decide)]

/-- `getNameStr` on `"a_%(count)_b"`: no date or time token occurs, so the
expansion loop is the identity. -/
lemma getNameStr_fmt2 (now : PyDateTime) :
    getNameStr "a_%(count)_b".data now = "a_%(count)_b".data := by
  simp only [getNameStr]
  rw [pyReplace_no_occurrence "%(date)".data (dateChars now)
    "a_%(count)_b".data (by decide)]
  rw [pyReplace_no_occurrence "%(year)".data (padNum 4 now.year)
    "a_%(count)_b".data (by decide)]
  rw [pyReplace_no_occurrence "%(yr)".data (padNum 2 (now.year % 100))
    "a_%(count)_b".data (by decide)]
  rw [pyReplace_no_occurrence "%(month)".data (padNum 2 now.month)
    "a_%(count)_b".data (by decide)]
  rw [pyReplace_no_occurrence "%(day)".data (padNum 2 now.day)
    "a_%(count)_b".data (by decide)]
  rw [pyReplace_no_occurrence "%(time)".data (timeChars now)
    "a_%(count)_b".data (by decide)]
  rw [pyReplace_no_occurrence "%(hour)".data (padNum 2 now.hour)
    "a_%(count)_b".data (by decide)]
  rw [pyReplace_no_occurrence "%(min)".data (padNum 2 now.minute)
    "a_%(count)_b".data (by decide)]
  rw [pyReplace_no_occurrence "%(sec)".data (padNum 2 now.second)
    "a_%(count)_b".data (by decide)]

/-- Length of the expanded date field. -/
lemma dateChars_length (now : PyDateTime) (hy : now.year < 10 ^ 4)
    (hmo : now.month < 10 ^ 2) (hd : now.day < 10 ^ 2) :
    (dateChars now).length = 8 := by
  unfold dateChars
  rw [List.length_append, List.length_append,
    padNum_length 4 now.year hy (by omega),
    padNum_length 2 now.month hmo (by omega),
    padNum_length 2 now.day hd (by omega)]

/-- Every character of the expanded date field is a digit. -/
lemma dateChars_all_digits (now : PyDateTime) :
    ∀ c ∈ dateChars now, c.isDigit = true := by
  intro c hc
  unfold dateChars at hc
  rcases List.mem_append.mp hc with h1 | h1
  · rcases List.mem_append.mp h1 with h2 | h2
    · exact padNum_all_digits 4 now.year c h2
    · exact padNum_all_digits 2 now.month c h2
  · exact padNum_all_digits 2 now.day c h1

/-- Length of the expanded time field. -/
lemma timeChars_length (now : PyDateTime) (hh : now.hour < 10 ^ 2)
    (hmi : now.minute < 10 ^ 2) (hs : now.second < 10 ^ 2) :
    (timeChars now).length = 6 := by
  unfold timeChars
  rw [List.length_append, List.length_append,
    padNum_length 2 now.hour hh (by omega),
    padNum_length 2 now.minute hmi (by omega),
    padNum_length 2 now.second hs (by omega)]

/-- Every character of the expanded time field is a digit. -/
lemma timeChars_all_digits (now : PyDateTime) :
    ∀ c ∈ timeChars now, c.isDigit = true := by
  intro c hc
  unfold timeChars at hc
  rcases List.mem_append.mp hc with h1 | h1
  · rcases List.mem_append.mp h1 with h2 | h2
    · exact padNum_all_digits 2 now.hour c h2
    · exact padNum_all_digits 2 now.minute c h2
  · exact padNum_all_digits 2 now.second c h1

/-- Packaging: a successful token match certifies `matches_naming_format`. -/
lemma matches_of_matchToks (ctrl : CheckpointingControl) (toks : List RTok)
    (hp : parseRe ctrl.naming_format_re = some toks) (name : String)
    (r : Option Nat) (hm : matchToks toks name.data none = some r) :
    matches_naming_format ctrl name = true := by
  unfold matches_naming_format reMatch
  rw [hp]
  show (matchToks toks name.data none).isSome = true
  rw [hm]
  rfl

/-- Matching literal tokens against exactly their text succeeds. -/
lemma matchToks_litToks_exact (cs : List Char) (g : Option Nat) :
    matchToks (litToks cs) cs g = some g := by
  induction cs with
  | nil => rfl
  | cons c cs ih =>
    show matchToks (RTok.lit c :: litToks cs) (c :: cs) g = some g
    simp only [matchToks, if_pos rfl]
    exact ih

/-- The default naming format of `CheckpointingControl.__init__`. -/
def defaultCtrl : CheckpointingControl :=
  { naming_format := "glompo_checkpoint_%(date)_%(time)", count := none }

/-- Claim C8, amended: the round-trip `matches_naming_format (get_name ())`
holds provided the count resolved from the directory scan does not exceed
`999` (counts are zero-padded *to* three digits but can grow past three
digits once an entry with count `999` exists, breaking the match when text
follows `%(count)` — see the counterexample).  Established for the default
format (for every valid calendar time and every directory) and for
`"a_%(count)_b"` (for every valid time and every directory whose resolved
count is at most `999`). -/
theorem c8_amended_roundtrip (now : PyDateTime)
    (hy : now.year < 10 ^ 4) (hmo : now.month < 10 ^ 2) (hd : now.day < 10 ^ 2)
    (hh : now.hour < 10 ^ 2) (hmi : now.minute < 10 ^ 2)
    (hs : now.second < 10 ^ 2) (dir1 dir2 : Option (List String))
    (hcnt : scanCount c8Ctrl dir2 ≤ 999) :
    matches_naming_format defaultCtrl (get_name defaultCtrl now dir1).1 = true ∧
    matches_naming_format c8Ctrl (get_name c8Ctrl now dir2).1 = true := by
  constructor
  · have hp1 : parseRe defaultCtrl.naming_format_re =
        some (litToks "glompo_checkpoint_".data ++
          (RTok.digits 8 :: (litToks "_".data ++ [RTok.digits 6]))) := by
      decide
    have hng1 : RTok.countGroup ∉ litToks "glompo_checkpoint_".data ++
        (RTok.digits 8 :: (litToks "_".data ++ [RTok.digits 6])) := by
      decide
    have hscan1 : scanCount defaultCtrl dir1 = 0 :=
      scanCount_no_group defaultCtrl _ hp1 hng1 dir1
    have hfull : '%' ∉ "glompo_checkpoint_".data ++ (dateChars now ++
        ("_".data ++ (timeChars now ++ []))) := by
      refine percent_not_mem_append _ _ (by decide)
        (percent_not_mem_append _ _ (percent_not_mem_dateChars now)
          (percent_not_mem_append _ _ (by decide)
            (percent_not_mem_append _ _ (percent_not_mem_timeChars now)
              (by decide))))
    have hname1 : (get_name defaultCtrl now dir1).1 =
        ⟨"glompo_checkpoint_".data ++ (dateChars now ++
          ("_".data ++ (timeChars now ++ [])))⟩ := by
      simp only [get_name]
      rw [show defaultCtrl.naming_format = "glompo_checkpoint_%(date)_%(time)"
        from rfl]
      rw [getNameStr_fmt1 now, hscan1]
      rw [pyReplace_not_mem "%(count)".data (formatCount 0) _ '%' (by decide)
        hfull]
    rw [hname1]
    refine matches_of_matchToks defaultCtrl _ hp1 _ none ?_
    show matchToks (litToks "glompo_checkpoint_".data ++
        (RTok.digits 8 :: (litToks "_".data ++ [RTok.digits 6])))
      ("glompo_checkpoint_".data ++ (dateChars now ++
        ("_".data ++ (timeChars now ++ [])))) none = some none
    rw [matchToks_litToks "glompo_checkpoint_".data
      (RTok.digits 8 :: (litToks "_".data ++ [RTok.digits 6]))
      (dateChars now ++ ("_".data ++ (timeChars now ++ []))) none]
    rw [matchToks_digits_cons 8 (dateChars now)
      (dateChars_length now hy hmo hd) (dateChars_all_digits now)
      (litToks "_".data ++ [RTok.digits 6])
      ("_".data ++ (timeChars now ++ [])) none]
    rw [matchToks_litToks "_".data [RTok.digits 6] (timeChars now ++ []) none]
    rw [matchToks_digits_cons 6 (timeChars now)
      (timeChars_length now hh hmi hs) (timeChars_all_digits now) [] [] none]
    rfl
  · have hp2 : parseRe c8Ctrl.naming_format_re =
        some (litToks "a_".data ++ (RTok.countGroup :: litToks "_b".data)) := by
      decide
    have hnn : 0 ≤ scanCount c8Ctrl dir2 := scanCount_nonneg c8Ctrl dir2
    have hlt : (scanCount c8Ctrl dir2).toNat < 10 ^ 3 := by
      have h1000 : (10 : Nat) ^ 3 = 1000 := by norm_num
      omega
    have hFlen : (formatCount (scanCount c8Ctrl dir2)).length = 3 :=
      padNum_length 3 (scanCount c8Ctrl dir2).toNat hlt (by omega)
    have hFdig : ∀ c ∈ formatCount (scanCount c8Ctrl dir2), c.isDigit = true :=
      padNum_all_digits 3 (scanCount c8Ctrl dir2).toNat
    have hname2 : (get_name c8Ctrl now dir2).1 =
        ⟨"a_".data ++ (formatCount (scanCount c8Ctrl dir2) ++ "_b".data)⟩ := by
      simp only [get_name]
      rw [show c8Ctrl.naming_format = "a_%(count)_b" from rfl]
      rw [getNameStr_fmt2 now]
      rw [show "a_%(count)_b".data =
        "a_".data ++ ("%(count)".data ++ "_b".data) from by decide]
      rw [pyReplace_append_left "%(count)".data
        (formatCount (scanCount c8Ctrl dir2)) "a_".data
        ("%(count)".data ++ "_b".data) '%' (by decide) (by decide)]
      rw [pyReplace_prefix_match "%(count)".data
        (formatCount (scanCount c8Ctrl dir2)) "_b".data (by decide)]
      rw [pyReplace_no_occurrence "%(count)".data
        (formatCount (scanCount c8Ctrl dir2)) "_b".data (by decide)]
    rw [hname2]
    refine matches_of_matchToks c8Ctrl _ hp2 _
      (some (digitsToNat (formatCount (scanCount c8Ctrl dir2)))) ?_
    show matchToks (litToks "a_".data ++
        (RTok.countGroup :: litToks "_b".data))
      ("a_".data ++ (formatCount (scanCount c8Ctrl dir2) ++ "_b".data)) none =
      some (some (digitsToNat (formatCount (scanCount c8Ctrl dir2))))
    rw [matchToks_litToks "a_".data (RTok.countGroup :: litToks "_b".data)
      (formatCount (scanCount c8Ctrl dir2) ++ "_b".data) none]
    rw [matchToks_group_cons (formatCount (scanCount c8Ctrl dir2)) hFlen hFdig
      (litToks "_b".data) "_b".data none]
    exact matchToks_litToks_exact "_b".data _

/-- Claim C8, witness: the amended theorem at a concrete time, an absent
directory for the default format, and an empty directory for the counted
format. -/
theorem c8_amended_roundtrip_witness :
    (c3Now.year < 10 ^ 4 ∧ scanCount c8Ctrl (some []) ≤ 999) ∧
    matches_naming_format defaultCtrl (get_name defaultCtrl c3Now none).1
      = true ∧
    matches_naming_format c8Ctrl (get_name c8Ctrl c3Now (some [])).1 = true := by
  have h := c8_amended_roundtrip c3Now (by decide) (by decide) (by decide)
    (by decide) (by decide) (by decide) none (some []) (by decide)
  exact ⟨⟨by decide, by decide⟩, h.1, h.2⟩
